import Mathlib

/-!
Shallow embedding of `MHG_partition.py` (NakhlehLab/Maximal-Homologous-Groups)
and verification of the frozen claims about it.

Conventions used throughout:
* Python strings of `'0'`/`'1'` (gap bitmasks) are `List Bool` with `true = '1'`.
* Python `int` is `Int`; interval endpoints are `Int`.
* A graph node of the alignment graph (`sourceNode` in the Python code) is an
  `(accession, (start, end))` pair, modelled as `NodeT`.
* A block-vertex of a module (`(node, path, direction)` triple in the code) is
  modelled as `Block`.
* Python dictionaries are insertion-ordered association lists (`Dict`), which
  matches CPython's ordered dict semantics; `defaultdict(set)` over interval
  sets is a `Dict` from `NodeT` to a duplicate-free `List (Int × Int)` in
  insertion order.
* Python exceptions are `Except String`; an uncaught exception is `.error`.
* `while` loops are encoded with an explicit fuel argument; the functions pass
  enough fuel for every terminating run, and a fuel shortage surfaces as
  `.error`, matching a Python `RecursionError`, which the bare `except:`
  handlers of the source also catch.
-/

namespace MHG

/-- Orientation of a block-vertex: the Python strings `"+"` and `"-"`. -/
inductive Dir where
  | plus : Dir
  | minus : Dir
deriving DecidableEq, Repr, Inhabited

/-- Flip `"+"` to `"-"` and back (`"-" if d == "+" else "+"`). -/
def Dir.flip : Dir → Dir
  | .plus => .minus
  | .minus => .plus

@[simp] theorem Dir.flip_flip (d : Dir) : d.flip.flip = d := by cases d <;> rfl

/-- An alignment-graph node `(accession, (start, end))`. -/
abbrev NodeT := String × Int × Int

/-- An interval `(lo, hi)` as stored in the index dictionaries. -/
abbrev Ivl := Int × Int

/-- A block-vertex `(node, path, direction)` of a module graph. -/
abbrev Block := NodeT × Ivl × Dir

/-- A gap bitmask: Python string of `'0'`/`'1'`, `true = '1'`. -/
abbrev Mask := List Bool

/-- `list(arr).count('1')`. -/
def countOnes (m : Mask) : Nat := m.count true

/-- Python slice `l[:stop]` including negative-index semantics
(`l[:-b]` is `l[: len l - b]`, and `l[:-0] = l[:0] = []`). -/
def pyTake (l : List α) (stop : Int) : List α :=
  let n : Int := l.length
  let s := if stop < 0 then max 0 (stop + n) else min stop n
  l.take s.toNat

/-- Python slice `l[start:]` with negative-index semantics. -/
def pyDrop (l : List α) (start : Int) : List α :=
  let n : Int := l.length
  let s := if start < 0 then max 0 (start + n) else min start n
  l.drop s.toNat

/-- Python slice `l[a:b]` for non-negative bounds. -/
def pySlice (l : List α) (a b : Int) : List α :=
  pyDrop (pyTake l b) a

/-! ## Insertion-ordered dictionaries (CPython `dict`) -/

/-- An insertion-ordered association list standing in for a Python `dict`. -/
abbrev Dict (κ ν : Type) := List (κ × ν)

namespace Dict

variable {κ ν : Type} [DecidableEq κ]

/-- `d[k]`, as an `Option`. -/
def get? (d : Dict κ ν) (k : κ) : Option ν :=
  (d.find? (fun p => p.1 = k)).map Prod.snd

/-- `d[k] = v`: update in place when the key exists (keeping its position in
the insertion order), otherwise append, exactly as CPython does. -/
def set (d : Dict κ ν) (k : κ) (v : ν) : Dict κ ν :=
  match d with
  | [] => [(k, v)]
  | (k', v') :: rest =>
      if k' = k then (k, v) :: rest else (k', v') :: set rest k v

/-- `d.pop(k, None)`: drop the entry for `k` if present. -/
def pop (d : Dict κ ν) (k : κ) : Dict κ ν :=
  match d with
  | [] => []
  | (k', v') :: rest => if k' = k then rest else (k', v') :: pop rest k

/-- `list(d.values())` in insertion order. -/
def values (d : Dict κ ν) : List ν := d.map Prod.snd

/-- `k in d`. -/
def hasKey (d : Dict κ ν) (k : κ) : Bool := (d.find? (fun p => p.1 = k)).isSome

end Dict

/-! ## `nth_item` and `choppedIndex` -/

/-- The indices at which `true` occurs, starting the running index at `i`:
this is `compress(count(), map(partial(eq, item), iterable))` from the source,
with the stream of indices materialised. -/
def onesIdx : List Bool → Nat → List Nat
  | [], _ => []
  | b :: r, i => if b then i :: onesIdx r (i + 1) else onesIdx r (i + 1)

/-- `nth_item(n, '1', iterable)`: the index of the `n`-th (0-based) `'1'`,
or `-1` when there are fewer than `n + 1` ones (the `next(..., -1)` default). -/
def nthItem (n : Nat) (l : List Bool) : Int :=
  match (onesIdx l 0).get? n with
  | some i => (i : Int)
  | none => -1

/-- `choppedIndex(blockArray, offset)`. An `offset` of `0` is promoted to `1`;
a negative `offset` makes `islice` raise `ValueError`, which the function
catches and re-raises as `ValueError("offset is negative")`. -/
def choppedIndex (blockArray : Mask) (offset : Int) : Except String Int :=
  let offset := if offset = 0 then 1 else offset
  if offset < 0 then .error "offset is negative"
  else .ok (nthItem (offset - 1).toNat blockArray + 1)

/-! ## Sorting helpers (Python `sorted`) -/

/-- Insert into a `≤`-sorted list of integers. -/
def insSortedInt (x : Int) : List Int → List Int
  | [] => [x]
  | y :: r => if x ≤ y then x :: y :: r else y :: insSortedInt x r

/-- `sorted(list(set(l)))` for integers. -/
def sortedUnique (l : List Int) : List Int :=
  l.eraseDups.foldr insSortedInt []

/-- Consecutive pairs `(l[i], l[i+1])` of a list of cut points. -/
def consecPairs : List Int → List Ivl
  | a :: b :: r => (a, b) :: consecPairs (b :: r)
  | _ => []

/-- `nodePartition(position, node)`: cut points are the endpoints of both
intervals, deduplicated and sorted; return the list of consecutive segments. -/
def nodePartition (position node : Ivl) : List Ivl :=
  consecPairs (sortedUnique [position.1, position.2, node.1, node.2])

/-- `multiChopNodePartition(listOfCutpoint, whole)`. -/
def multiChopNodePartition (listOfCutpoint : List Ivl) (whole : Ivl) : List Ivl :=
  consecPairs (sortedUnique
    ([whole.1, whole.2] ++ listOfCutpoint.flatMap (fun p => [p.1, p.2])))

/-- `tuple(sorted(pair))` for an interval. -/
def sortPair (p : Ivl) : Ivl := if p.1 ≤ p.2 then p else (p.2, p.1)

/-- Python's ordering on direction strings: `"+" < "-"` (code point 43 < 45). -/
def dirLE : Dir → Dir → Bool
  | .plus, _ => true
  | .minus, .minus => true
  | .minus, .plus => false

/-- Lexicographic order on character lists (Python string comparison by
code points; spelled out on `String.data` so that it evaluates in the
kernel, which `String.decidableLT` does not). -/
def charListLT : List Char → List Char → Bool
  | [], [] => false
  | [], _ :: _ => true
  | _ :: _, [] => false
  | a :: r, b :: s =>
      if a < b then true else if b < a then false else charListLT r s

/-- Python `a < b` on strings. -/
def strLT (a b : String) : Bool := charListLT a.data b.data

/-- Python's lexicographic tuple comparison on `(accession, (lo, hi))`. -/
def nodeLE (a b : NodeT) : Bool :=
  if a.1 ≠ b.1 then strLT a.1 b.1
  else if a.2.1 ≠ b.2.1 then decide (a.2.1 < b.2.1)
  else decide (a.2.2 ≤ b.2.2)

/-- Python's lexicographic tuple comparison on block-vertices. -/
def blockLE (a b : Block) : Bool :=
  if a.1 ≠ b.1 then nodeLE a.1 b.1
  else if a.2.1.1 ≠ b.2.1.1 then decide (a.2.1.1 < b.2.1.1)
  else if a.2.1.2 ≠ b.2.1.2 then decide (a.2.1.2 < b.2.1.2)
  else dirLE a.2.2 b.2.2

/-- Insertion into a `blockLE`-sorted list. -/
def insSortedBlock (x : Block) : List Block → List Block
  | [] => [x]
  | y :: r => if blockLE y x then y :: insSortedBlock x r else x :: y :: r

/-- `sorted(blocks)` with Python tuple ordering. -/
def sortBlocks (l : List Block) : List Block := l.foldr insSortedBlock []

/-! ## Module graphs: `networkx.MultiDiGraph` -/

/-- A multigraph edge entry `(u, v, key, weight)`. -/
abbrev EdgeT := Block × Block × Nat × Mask

instance : DecidableEq EdgeT := fun a b => instDecidableEqProd a b

instance : DecidableEq (Block × Block × Nat) := fun a b =>
  instDecidableEqProd a b

/-- Accumulator pass of `dedupKeepFirst`: drop elements already `seen`. -/
def dedupAux {α : Type} [DecidableEq α] : List α → List α → List α
  | [], _ => []
  | x :: r, seen =>
      if x ∈ seen then dedupAux r seen else x :: dedupAux r (x :: seen)

/-- Keep-first deduplication (the iteration order of a Python `set`/`dict`
built by insertions, and networkx's neighbour ordering). -/
def dedupKeepFirst {α : Type} [DecidableEq α] (l : List α) : List α :=
  dedupAux l []

/-- A `networkx.MultiDiGraph` over block-vertices.  `nodes` is the node dict
in insertion order; `edges` the flat list of `(u, v, key, weight)` entries in
insertion order. -/
structure MGraph where
  nodes : List Block
  edges : List (Block × Block × Nat × Mask)
deriving DecidableEq, Repr

namespace MGraph

/-- The empty `nx.MultiDiGraph()`. -/
def empty : MGraph := ⟨[], []⟩

/-- `G.add_node(b)`: append if absent. -/
def addNode (g : MGraph) (b : Block) : MGraph :=
  if b ∈ g.nodes then g else ⟨g.nodes ++ [b], g.edges⟩

/-- `G.add_nodes_from(l)`. -/
def addNodesFrom (g : MGraph) (l : List Block) : MGraph :=
  l.foldl addNode g

/-- The keys of the parallel edges already present between `u` and `v`. -/
def keysBetween (g : MGraph) (u v : Block) : List Nat :=
  (g.edges.filter (fun e => e.1 = u ∧ e.2.1 = v)).map (fun e => e.2.2.1)

/-- networkx's fresh-key choice: start at the number of existing parallel
edges and bump past collisions. -/
def freshKeyAux (used : List Nat) : Nat → Nat → Nat
  | 0, k => k
  | fuel + 1, k => if k ∈ used then freshKeyAux used fuel (k + 1) else k

def freshKey (g : MGraph) (u v : Block) : Nat :=
  let used := keysBetween g u v
  freshKeyAux used (used.length + 1) used.length

/-- Replace the weight of edge `(u, v, k)` in place, if present. -/
def replaceEdge (es : List (Block × Block × Nat × Mask)) (u v : Block) (k : Nat)
    (w : Mask) : List (Block × Block × Nat × Mask) :=
  match es with
  | [] => []
  | e :: rest =>
      if e.1 = u ∧ e.2.1 = v ∧ e.2.2.1 = k then (u, v, k, w) :: rest
      else e :: replaceEdge rest u v k w

/-- `G.add_edge(u, v, key, weight=w)`: missing endpoints are added; an
existing `(u, v, key)` edge has its data updated in place. -/
def addEdgeKeyed (g : MGraph) (u v : Block) (k : Nat) (w : Mask) : MGraph :=
  let g := (g.addNode u).addNode v
  if k ∈ g.keysBetween u v then ⟨g.nodes, replaceEdge g.edges u v k w⟩
  else ⟨g.nodes, g.edges ++ [(u, v, k, w)]⟩

/-- `G.add_edge(u, v, weight=w)` with an automatically chosen key. -/
def addEdgeAuto (g : MGraph) (u v : Block) (w : Mask) : MGraph :=
  g.addEdgeKeyed u v (g.freshKey u v) w

/-- `G[u][v][k]['weight']`, as an `Option`. -/
def getW (g : MGraph) (u v : Block) (k : Nat) : Option Mask :=
  (g.edges.find? (fun e => e.1 = u ∧ e.2.1 = v ∧ e.2.2.1 = k)).map
    (fun e => e.2.2.2)

/-- Out-edges of `u` in networkx adjacency order: neighbours in order of
first edge insertion, parallel keys in insertion order. -/
def outEdges (g : MGraph) (u : Block) : List (Block × Block × Nat × Mask) :=
  let es := g.edges.filter (fun e => e.1 = u)
  let nbrs := dedupKeepFirst (es.map (fun e => e.2.1))
  nbrs.flatMap (fun v => es.filter (fun e => e.2.1 = v))

/-- `list(G.edges)` on a `MultiDiGraph`: pairs `(u, v)` *without* keys, one
entry per parallel edge, in adjacency order. -/
def edgesNoKeys (g : MGraph) : List (Block × Block) :=
  g.nodes.flatMap (fun u => (g.outEdges u).map (fun e => (e.1, e.2.1)))

/-- One step of `nx.edge_bfs`: process every out-edge of the dequeued node. -/
def edgeBfsStep (g : MGraph) (u : Block)
    (st : List Block × List Block × List (Block × Block × Nat)) :
    List Block × List Block × List (Block × Block × Nat) :=
  (g.outEdges u).foldl
    (fun st e =>
      let (vis, qadd, acc) := st
      let c := e.2.1
      let (vis, qadd) := if c ∈ vis then (vis, qadd) else (vis ++ [c], qadd ++ [c])
      let key := (e.1, e.2.1, e.2.2.1)
      let acc := if key ∈ acc then acc else acc ++ [key]
      (vis, qadd, acc))
    st

def edgeBfsAux (g : MGraph) :
    Nat → List Block → List Block → List (Block × Block × Nat) →
      List (Block × Block × Nat)
  | 0, _, _, acc => acc
  | _ + 1, [], _, acc => acc
  | fuel + 1, u :: qs, vis, acc =>
      let (vis, qadd, acc) := edgeBfsStep g u (vis, [], acc)
      edgeBfsAux g fuel (qs ++ qadd) vis acc

/-- `list(nx.edge_bfs(g, start))`: all directed edges reachable from `start`,
each `(u, v, key)` exactly once, in breadth-first order.  When `start` is not
a node of `g`, `nbunch_iter` silently filters the tuple's components (none of
which is a node) and yields nothing. -/
def edgeBfs (g : MGraph) (start : Block) : List (Block × Block × Nat) :=
  if start ∈ g.nodes then
    edgeBfsAux g (g.nodes.length + g.edges.length + 1) [start] [start] []
  else []

/-- `nx.compose(g, h)`: `h`'s nodes and edges laid over a copy of `g`;
`h`'s data wins on conflicting `(u, v, key)` triples. -/
def compose (g h : MGraph) : MGraph :=
  let g := g.addNodesFrom h.nodes
  h.edges.foldl (fun g e => g.addEdgeKeyed e.1 e.2.1 e.2.2.1 e.2.2.2) g

/-- `g.subgraph(blocks)`: induced subgraph on the given block-vertices. -/
def subgraph (g : MGraph) (blocks : List Block) : MGraph :=
  ⟨g.nodes.filter (fun n => n ∈ blocks),
   g.edges.filter (fun e => e.1 ∈ blocks ∧ e.2.1 ∈ blocks)⟩

/-- `list(G.edges)` on a `MultiDiGraph`: iterating the bare edge *view*
yields `(u, v, key)` triples in adjacency order (unlike the called
`G.edges()`, which drops the keys). -/
def edgesKeyed (g : MGraph) : List (Block × Block × Nat) :=
  g.nodes.flatMap (fun u => (g.outEdges u).map (fun e => (e.1, e.2.1, e.2.2.1)))

/-- The full edge entries in adjacency-view order. -/
def adjEdges (g : MGraph) : List EdgeT :=
  g.nodes.flatMap (fun u => g.outEdges u)

/-- Well-formedness of a graph value actually built through the `networkx`
API: nodes are distinct, every edge endpoint is a node, and the `(u, v, key)`
triples are pairwise distinct. -/
def Wf (g : MGraph) : Prop :=
  g.nodes.Nodup ∧
  (∀ e ∈ g.edges, e.1 ∈ g.nodes ∧ e.2.1 ∈ g.nodes) ∧
  (g.edges.map (fun e => (e.1, e.2.1, e.2.2.1))).Nodup

end MGraph

instance : DecidableEq (NodeT × Ivl) := fun a b => instDecidableEqProd a b

instance : DecidableEq ((NodeT × Ivl) × MGraph) := fun a b =>
  instDecidableEqProd a b

instance : DecidableEq (NodeT × List Ivl) := fun a b => instDecidableEqProd a b

/-- `Option` to `Except`: a failed Python dict lookup (`KeyError`). -/
def exceptOfOption (o : Option α) (msg : String) : Except String α :=
  match o with
  | some a => .ok a
  | none => .error msg

/-! ## The two shared indexes -/

/-- `nodeToPathDic`: `defaultdict(lambda: set())` from nodes to interval sets,
modelled as an insertion-ordered dict of duplicate-free interval lists. -/
abbrev NodesDict := Dict NodeT (List Ivl)

/-- `nodePathToModuleDic`: a plain dict from `(node, path)` to a module. -/
abbrev PathsDict := Dict (NodeT × Ivl) MGraph

/-- `defaultdict` read `d[n]`: the stored set, or the empty set. -/
def ddGet (d : NodesDict) (n : NodeT) : List Ivl :=
  (Dict.get? d n).getD []

/-- A `defaultdict` access materialises a missing key with an empty set. -/
def ddEnsure (d : NodesDict) (n : NodeT) : NodesDict :=
  if Dict.hasKey d n then d else Dict.set d n []

/-- `nodeToPathDic[n].add(p)` (Python `set.add`). -/
def nodesAdd (d : NodesDict) (n : NodeT) (p : Ivl) : NodesDict :=
  let d := ddEnsure d n
  let l := ddGet d n
  if p ∈ l then d else Dict.set d n (l ++ [p])

/-- `nodeToPathDic[n].discard(p)` (Python `set.discard`). -/
def nodesDiscard (d : NodesDict) (n : NodeT) (p : Ivl) : NodesDict :=
  let d := ddEnsure d n
  Dict.set d n ((ddGet d n).erase p)

/-- `removeOldModule(oldModule, nodeToPathDic, nodePathToModuleDic)`. -/
def removeOldModule (oldModule : MGraph) (n2p : NodesDict) (p2m : PathsDict) :
    NodesDict × PathsDict :=
  oldModule.nodes.foldl
    (fun st b =>
      let (nodeName, pathTuple, _direction) := b
      (nodesDiscard st.1 nodeName pathTuple, Dict.pop st.2 (nodeName, pathTuple)))
    (n2p, p2m)

/-- The registration loop of `updateNewModule`: NOTE the Python source uses
`break`, not `continue`, at a block shorter than `trimLength`, so registration
stops at the first short block. -/
def updateNewModuleGo (newModule : MGraph) (trimLength : Int) :
    List Block → NodesDict → PathsDict → NodesDict × PathsDict
  | [], n2p, p2m => (n2p, p2m)
  | b :: rest, n2p, p2m =>
      let (nodeName, pathTuple, _direction) := b
      if pathTuple.2 - pathTuple.1 < trimLength then (n2p, p2m)
      else
        updateNewModuleGo newModule trimLength rest
          (nodesAdd n2p nodeName pathTuple)
          (Dict.set p2m (nodeName, pathTuple) newModule)

/-- `updateNewModule(newModule, nodeToPathDic, nodePathToModuleDic,
trimLength=20)`; the default `trimLength` is passed explicitly by callers of
this embedding. -/
def updateNewModule (newModule : MGraph) (n2p : NodesDict) (p2m : PathsDict)
    (trimLength : Int) : NodesDict × PathsDict :=
  updateNewModuleGo newModule trimLength newModule.nodes n2p p2m

/-- `trimShortModules(nodeToPathDic, nodePathToModuleDic, trimLength=10)`. -/
def trimShortModules (n2p : NodesDict) (p2m : PathsDict) (trimLength : Int) :
    NodesDict × PathsDict :=
  (n2p.map Prod.fst).foldl
    (fun st node =>
      let pathList := ddGet st.1 node
      pathList.foldl
        (fun st path =>
          if path.2 - path.1 < trimLength then
            (nodesDiscard st.1 node path, Dict.pop st.2 (node, path))
          else st)
        st)
    (n2p, p2m)

/-- `bedtoolCall(node, nodeToPathDic, path)`: every interval stored for
`node` that intersects `path`, in stored order; `bedtools intersect` on
half-open BED intervals reports `a` iff `a.lo < path.hi` and `path.lo < a.hi`.
Accessing the `defaultdict` also materialises the key, but the function
returns only the overlap list, so only the pairs matter to callers. -/
def bedtoolCall (node : NodeT) (n2p : NodesDict) (path : Ivl) :
    List (NodeT × Ivl) :=
  ((ddGet n2p node).filter
    (fun se => se.1 < path.2 ∧ path.1 < se.2)).map (fun se => (node, se))

/-- Python `list.remove(x)`: drop the first occurrence, `ValueError` when
absent. -/
def pyRemove {α : Type} [DecidableEq α] (l : List α) (x : α) :
    Option (List α) :=
  if x ∈ l then some (l.erase x) else none

/-! ## Module emission at SCC termination (`main`) -/

/-- The per-SCC emission step of `main`: collect every live module's sorted
node list (`tuple(sorted(list(m_graph.nodes)))`), deduplicate
(`list(set(...))`; CPython set iteration order is unspecified, keep-first
order is one admissible order and nothing proved below depends on which order
is realised), keep the lists with more than one block, then write each kept
list restricted to its blocks with `lo ≤ hi`. -/
def emitModules (p2m : PathsDict) : List (List Block) :=
  let modules := dedupKeepFirst (p2m.values.map (fun g => sortBlocks g.nodes))
  let modules2 := modules.filter (fun m => 1 < m.length)
  modules2.map (fun m => m.filter (fun b => b.2.1.1 ≤ b.2.1.2))

/-- Emission counterexample data: two live two-block modules that agree on
the block `(("s",0,100),(0,50),+)` and otherwise hold only an inverted
(`lo > hi`) block each. -/
def c7Dic : PathsDict :=
  [((("s", 0, 100), (0, 50)),
    { nodes := [(("s", 0, 100), (0, 50), Dir.plus),
                (("s", 0, 100), (99, 2), Dir.plus)], edges := [] }),
   ((("s", 0, 100), (0, 60)),
    { nodes := [(("s", 0, 100), (0, 50), Dir.plus),
                (("t", 0, 100), (80, 3), Dir.plus)], edges := [] })]

/-! ## The trim schedule of the driver loop (`main`) -/

/-- The driver-loop state that decides when `trimShortModules` runs: the
remaining `(source, dest)` edge list of the SCC subgraph, the per-node-pair
parallel-edge counter `edgeCounterDicBetweenTwoNodes`, the set (in insertion
order) of visited `(node, sorted path)` pairs and the running directed-edge
counter `numberOfEdges`. -/
structure SchedState where
  edgeList : List (NodeT × NodeT)
  edgeCounterDic : Dict (NodeT × NodeT) Nat
  visitedEdgePair : List ((NodeT × Ivl) × (NodeT × Ivl))
  numberOfEdges : Nat
deriving DecidableEq, Repr

/-- Strict Python `<` on `(accession, (lo, hi))` nodes. -/
def nodeLT (a b : NodeT) : Bool :=
  if a.1 ≠ b.1 then strLT a.1 b.1
  else if a.2.1 ≠ b.2.1 then decide (a.2.1 < b.2.1)
  else decide (a.2.2 < b.2.2)

/-- Strict Python `<` on `(node, path)` pairs. -/
def npLT (a b : NodeT × Ivl) : Bool :=
  if a.1 ≠ b.1 then nodeLT a.1 b.1
  else if a.2.1 ≠ b.2.1 then decide (a.2.1 < b.2.1)
  else decide (a.2.2 < b.2.2)

/-- `tuple(sorted((x, y)))` for two `(node, path)` pairs (`sorted` is
stable: `y` comes first exactly when `y < x`). -/
def sortPairNP (x y : NodeT × Ivl) : (NodeT × Ivl) × (NodeT × Ivl) :=
  if npLT y x then (y, x) else (x, y)

/-- One iteration of the driver loop up to the trim decision (`main` lines
1488-1510): pop the head edge pair and its reverse from the edge list, look
up their weights at the current parallel-edge index, bump that index and the
directed-edge counter by 2, skip (`continue`) a `(node, sorted path)` pair
that was already visited, and otherwise record the pair and report — as the
returned `Bool` — whether this iteration invokes `trimShortModules`
(`numberOfEdges % 500 == 0`).  The rest of the loop body (the `< 20` span
skip and the partition dispatch, lines 1511-1561) modifies none of the four
fields carried here and never calls `trimShortModules`, so this state is
exactly what determines the trim schedule; `weights` is the read-only
lookup `S[u][v][k]['weight'][0]` of the SCC subgraph, `none` meaning a
`KeyError` (the bit arrays play no role in the schedule). -/
def schedStep (weights : NodeT → NodeT → Nat → Option Ivl) (st : SchedState) :
    Except String (SchedState × Bool) :=
  match st.edgeList with
  | [] => .error "IndexError: empty edge list"
  | (sourceNode, destNode) :: _ =>
      let idx := (Dict.get? st.edgeCounterDic (sourceNode, destNode)).getD 0
      match weights sourceNode destNode idx with
      | none => .error "KeyError: missing edge weight"
      | some sourceToDestPath =>
          match pyRemove st.edgeList (sourceNode, destNode) with
          | none => .error "ValueError: edge not in list"
          | some el1 =>
              match weights destNode sourceNode idx with
              | none => .error "KeyError: missing edge weight"
              | some destToSourcePath =>
                  match pyRemove el1 (destNode, sourceNode) with
                  | none => .error "ValueError: edge not in list"
                  | some el2 =>
                      let ecd := Dict.set st.edgeCounterDic
                        (sourceNode, destNode) (idx + 1)
                      let n := st.numberOfEdges + 2
                      let pair := sortPairNP
                        (sourceNode, sortPair sourceToDestPath)
                        (destNode, sortPair destToSourcePath)
                      if pair ∈ st.visitedEdgePair then
                        .ok (⟨el2, ecd, st.visitedEdgePair, n⟩, false)
                      else
                        .ok (⟨el2, ecd, st.visitedEdgePair ++ [pair], n⟩,
                          n % 500 == 0)

/-- The `while edgeList:` loop projected onto the trim schedule; returns the
final state together with the list of `numberOfEdges` counter values at
which `trimShortModules` was invoked during the loop (the source invokes it
once more, unconditionally, after the loop). -/
def schedLoop (weights : NodeT → NodeT → Nat → Option Ivl) :
    Nat → SchedState → Except String (SchedState × List Nat)
  | 0, st =>
      if st.edgeList.isEmpty then .ok (st, [])
      else .error "loop fuel exhausted"
  | fuel + 1, st =>
      if st.edgeList.isEmpty then .ok (st, [])
      else
        match schedStep weights st with
        | .error e => .error e
        | .ok (st', trimmed) =>
            match schedLoop weights fuel st' with
            | .error e => .error e
            | .ok (stF, evs) =>
                .ok (stF, (if trimmed then [st'.numberOfEdges] else []) ++ evs)

/-- Counterexample trace data: the two nodes of the repeated edge pair. -/
def c6A : NodeT := ("n", 0, 0)

/-- Counterexample trace data: the partner node of the repeated pair. -/
def c6B : NodeT := ("n", 0, 1)

/-- 250 parallel bidirectional copies of one edge pair: every iteration
after the first sees an already-visited `(node, sorted path)` pair. -/
def c6edges : List (NodeT × NodeT) :=
  (List.range 250).flatMap (fun _ => [(c6A, c6B), (c6B, c6A)])

/-- Weights for `c6edges`: every parallel edge carries the same path
`(0, 5)`, so every iteration computes the same visited pair. -/
def c6weights : NodeT → NodeT → Nat → Option Ivl := fun u v k =>
  if ((u = c6A ∧ v = c6B) ∨ (u = c6B ∧ v = c6A)) ∧ k ≤ 249 then
    some ((0 : Int), (5 : Int))
  else none

/-- Start of the counterexample SCC: fresh counters, nothing visited. -/
def c6init : SchedState := ⟨c6edges, [], [], 0⟩

/-! ## `partitionToTwoModules` -/

/-- The loop state of `partitionToTwoModules`: the two output graphs, the
`seg_distance_dic` (`defaultdict(lambda: -1)`), the two fragment dicts, the
remaining `nodeSet` and the remaining `edgeList`. -/
structure PTMState where
  firstPart : MGraph
  secondPart : MGraph
  segDist : Dict Block Int
  firstDic : Dict Block Block
  secondDic : Dict Block Block
  nodeSet : List Block
  edgeList : List (Block × Block × Nat)

/-- The orientation-dependent mask/coordinate splitting of one loop
iteration of `partitionToTwoModules` (lines 334-372 of the source): returns
`(source_first_array, source_second_array, dest_first_array,
dest_second_array, dest_first_node, dest_second_node, new seg distance of
destSeg)`. -/
def ptmBranch (sourceToDestArray destToSourceArray : Mask)
    (sourceSeg destSeg : Block) (cutpoint : Int) :
    Except String (Mask × Mask × Mask × Mask × Block × Block × Int) :=
  if sourceSeg.2.2 = Dir.plus then
    match choppedIndex sourceToDestArray cutpoint with
    | .error e => .error e
    | .ok boundary =>
      let source_first_array := pyTake sourceToDestArray boundary
      let source_second_array := pyDrop sourceToDestArray boundary
      let dest_first_array := pyTake destToSourceArray boundary
      let dest_second_array := pyDrop destToSourceArray boundary
      let destOffset : Int := dest_first_array.count true
      if destSeg.2.2 = Dir.plus then
        let dest_midpoint := destSeg.2.1.1 + destOffset
        .ok (source_first_array, source_second_array, dest_first_array,
          dest_second_array,
          (destSeg.1, (destSeg.2.1.1, dest_midpoint), destSeg.2.2),
          (destSeg.1, (dest_midpoint, destSeg.2.1.2), destSeg.2.2),
          destOffset)
      else
        let dest_midpoint := destSeg.2.1.2 - destOffset
        .ok (source_first_array, source_second_array, dest_first_array,
          dest_second_array,
          (destSeg.1, (dest_midpoint, destSeg.2.1.2), destSeg.2.2),
          (destSeg.1, (destSeg.2.1.1, dest_midpoint), destSeg.2.2),
          dest_midpoint - destSeg.2.1.1)
  else
    match choppedIndex sourceToDestArray.reverse cutpoint with
    | .error _ => .error "source seg not in seg dic"
    | .ok boundary =>
      let source_first_array := pyTake sourceToDestArray (-boundary)
      let source_second_array := pyDrop sourceToDestArray (-boundary)
      let dest_second_array := pyDrop destToSourceArray (-boundary)
      let dest_first_array := pyTake destToSourceArray (-boundary)
      let destOffset : Int := dest_first_array.count true
      if destSeg.2.2 = Dir.plus then
        let dest_midpoint := destSeg.2.1.1 + destOffset
        .ok (source_first_array, source_second_array, dest_first_array,
          dest_second_array,
          (destSeg.1, (destSeg.2.1.1, dest_midpoint), destSeg.2.2),
          (destSeg.1, (dest_midpoint, destSeg.2.1.2), destSeg.2.2),
          destOffset)
      else
        let dest_midpoint0 := destSeg.2.1.2 - destOffset
        let dest_midpoint := if dest_midpoint0 < destSeg.2.1.1 then
          destSeg.2.1.1 + (dest_second_array.count true : Int)
          else dest_midpoint0
        .ok (source_first_array, source_second_array, dest_first_array,
          dest_second_array,
          (destSeg.1, (dest_midpoint, destSeg.2.1.2), destSeg.2.2),
          (destSeg.1, (destSeg.2.1.1, dest_midpoint), destSeg.2.2),
          dest_midpoint - destSeg.2.1.1)

/-- The `while edgeList:` loop of `partitionToTwoModules`; the trailing
`raise ValueError("Everything is missed")` fires when the edge list runs
dry with block-vertices still unvisited. -/
def ptmLoop (module : MGraph) :
    Nat → PTMState → Except String (MGraph × MGraph)
  | 0, _ => .error "RecursionError"
  | fuel + 1, st =>
    match st.edgeList with
    | [] => .error "Everything is missed"
    | (sourceSeg, destSeg, counter) :: _ =>
      match module.getW sourceSeg destSeg counter with
      | none => .error "KeyError"
      | some sourceToDestArray =>
      match module.getW destSeg sourceSeg counter with
      | none => .error "KeyError"
      | some destToSourceArray =>
      match pyRemove st.edgeList (sourceSeg, destSeg, counter) with
      | none => .error "ValueError"
      | some el1 =>
      match pyRemove el1 (destSeg, sourceSeg, counter) with
      | none => .error "ValueError"
      | some el2 =>
      if sourceSeg ∉ st.nodeSet ∧ destSeg ∉ st.nodeSet then
        ptmLoop module fuel { st with edgeList := el2 }
      else if (Dict.get? st.segDist sourceSeg).getD (-1) ≠ -1 then
        match Dict.get? st.firstDic sourceSeg with
        | none => .error "KeyError"
        | some sourceFirstNode =>
        match Dict.get? st.secondDic sourceSeg with
        | none => .error "KeyError"
        | some sourceSecNode =>
        match ptmBranch sourceToDestArray destToSourceArray sourceSeg destSeg
            ((Dict.get? st.segDist sourceSeg).getD (-1)) with
        | .error e => .error e
        | .ok (sfa, ssa, dfa, dsa, dfn, dsn, sdv) =>
          let st' : PTMState :=
            { firstPart := (st.firstPart.addEdgeAuto sourceFirstNode dfn
                sfa).addEdgeAuto dfn sourceFirstNode dfa,
              secondPart := (st.secondPart.addEdgeAuto sourceSecNode dsn
                ssa).addEdgeAuto dsn sourceSecNode dsa,
              segDist := Dict.set st.segDist destSeg sdv,
              firstDic := Dict.set st.firstDic destSeg dfn,
              secondDic := Dict.set st.secondDic destSeg dsn,
              nodeSet := st.nodeSet.erase destSeg,
              edgeList := el2 }
          if st'.nodeSet.isEmpty then .ok (st'.firstPart, st'.secondPart)
          else ptmLoop module fuel st'
      else
        if st.nodeSet.isEmpty then .ok (st.firstPart, st.secondPart)
        else ptmLoop module fuel { st with edgeList := el2 }

/-- The `first_node_dic` entry for the split block itself: the fragment on
the `firstPart` side. -/
def ptmFirstFrag (blockNode : Block) (nucDistance : Int) : Block :=
  if blockNode.2.2 = Dir.plus then
    (blockNode.1, (blockNode.2.1.1, blockNode.2.1.1 + nucDistance), Dir.plus)
  else
    (blockNode.1, (blockNode.2.1.1 + nucDistance, blockNode.2.1.2), Dir.minus)

/-- The `second_node_dic` entry for the split block itself. -/
def ptmSecondFrag (blockNode : Block) (nucDistance : Int) : Block :=
  if blockNode.2.2 = Dir.plus then
    (blockNode.1, (blockNode.2.1.1 + nucDistance, blockNode.2.1.2), Dir.plus)
  else
    (blockNode.1, (blockNode.2.1.1, blockNode.2.1.1 + nucDistance), Dir.minus)

/-- `partitionToTwoModules(blockNode, nucDistance, module)`: split `module`
into two module graphs along the cut of `blockNode` at offset `nucDistance`.
(`edge_bfs` is computed before the empty-`nodeSet` early return in the
source; it is pure, so inlining it into both branches is equivalent.) -/
def partitionToTwoModules (blockNode : Block) (nucDistance : Int)
    (module : MGraph) : Except String (MGraph × MGraph) :=
  if ((dedupKeepFirst module.nodes).erase blockNode).isEmpty then
    .ok (MGraph.empty.addNode (ptmFirstFrag blockNode nucDistance),
      MGraph.empty.addNode (ptmSecondFrag blockNode nucDistance))
  else
    ptmLoop module ((module.edgeBfs blockNode).length + 1)
      { firstPart := MGraph.empty, secondPart := MGraph.empty,
        segDist := [(blockNode, nucDistance)],
        firstDic := [(blockNode, ptmFirstFrag blockNode nucDistance)],
        secondDic := [(blockNode, ptmSecondFrag blockNode nucDistance)],
        nodeSet := (dedupKeepFirst module.nodes).erase blockNode,
        edgeList := module.edgeBfs blockNode }

/-! ## `signReverse` -/

/-- Flip a block-vertex's orientation, keeping node and interval. -/
def flipBlock (b : Block) : Block := (b.1, b.2.1, b.2.2.flip)

/-- An edge entry under a global sign flip: endpoints flipped, key kept,
mask reversed. -/
def flipEdge (e : EdgeT) : EdgeT :=
  (flipBlock e.1, flipBlock e.2.1, e.2.2.1, e.2.2.2.reverse)

/-- The identifying `(u, v, key)` triple of an edge entry. -/
def keyTriple (e : EdgeT) : Block × Block × Nat := (e.1, e.2.1, e.2.2.1)

/-- The `(u, v, key)` triple under a sign flip. -/
def flipTriple (t : Block × Block × Nat) : Block × Block × Nat :=
  (flipBlock t.1, flipBlock t.2.1, t.2.2)

/-- The edge loop body of `signReverse`:
`reverseSign.add_edge(nodeMapping[s], nodeMapping[d], i,
weight=module[s][d][i]['weight'][::-1])`. -/
def signReverseStep (module : MGraph) (nodeMapping : Dict Block Block)
    (g : MGraph) (sdi : Block × Block × Nat) : Except String MGraph :=
  match Dict.get? nodeMapping sdi.1, Dict.get? nodeMapping sdi.2.1,
      module.getW sdi.1 sdi.2.1 sdi.2.2 with
  | some ms, some md, some w => .ok (g.addEdgeKeyed ms md sdi.2.2 w.reverse)
  | none, _, _ => .error "KeyError"
  | some _, none, _ => .error "KeyError"
  | some _, some _, none => .error "KeyError"

/-- `signReverse(module)`: flip every block-vertex sign and reverse every
edge bitmask. -/
def signReverse (module : MGraph) : Except String MGraph :=
  let nodeMapping : Dict Block Block :=
    module.nodes.foldl (fun m node => Dict.set m node (flipBlock node)) []
  let newNodes : List Block := module.nodes.map flipBlock
  let g0 := MGraph.empty.addNodesFrom newNodes
  (MGraph.edgesKeyed module).foldlM (signReverseStep module nodeMapping) g0

/-! ## `blastToDf` -/

/-- One row of the pairwise-alignment dataframe; only the columns the
bitscore filter reads are modelled (plus `alignmentLength`, which the spec's
formula mentions). -/
structure Row where
  queryAccVer : String
  subjectAccVer : String
  alignmentLength : Int
  qStart : Int
  qEnd : Int
  bitScore : Int
deriving DecidableEq, Repr

/-- The threshold column `int((qEnd - qStart) * 1.6446838 + 3)`: the float
constant is taken at its decimal value `16446838 / 10^7`, and Python's
`int(...)` truncates toward zero, which on the exact fraction is `Int.tdiv`
of the scaled numerator. -/
def scoreThreshold (r : Row) : Int :=
  Int.tdiv ((r.qEnd - r.qStart) * 16446838 + 3 * 10000000) 10000000

/-- `blastToDf(df, threshold)` restricted to its row-filtering effect: the
auxiliary `qPair`/`sPair`/`qEdge`/`sEdge` column assignments do not change the
row set; the filter keeps rows with distinct accessions whose `bitScore`
passes `threshold * scoreThreshold`. -/
def blastToDf (df : List Row) (threshold : ℚ) : List Row :=
  let df := df.filter (fun r => r.subjectAccVer ≠ r.queryAccVer)
  df.filter (fun r => threshold * (scoreThreshold r : ℚ) ≤ (r.bitScore : ℚ))

/-- The bitscore cut exactly as the claim states it, over the alignment
length `align_len`. -/
def specBitscoreKeep (r : Row) (threshold : ℚ) : Prop :=
  threshold * ((16446838 / 10000000) * (r.alignmentLength : ℚ) + 3) ≤
    (r.bitScore : ℚ)

/-- A row with 10 gap columns: `align_len = 110` but `qEnd - qStart = 100`. -/
def c9Row : Row :=
  { queryAccVer := "q", subjectAccVer := "s", alignmentLength := 110,
    qStart := 1, qEnd := 101, bitScore := 70 }

/-- A module whose node list holds a short block (length `5`) before a long
block (length `100`). -/
def c4Module : MGraph :=
  { nodes := [(("s", 0, 1000), (0, 5), Dir.plus),
              (("s", 0, 1000), (100, 200), Dir.plus)],
    edges := [] }

/-- The loop invariant of `partitionToTwoModules`: the split block's two
fragments are recorded for `v`, every block with a recorded split distance
has already left the node set, and either both fragments of `v` are already
placed (first fragment in `firstPart`, second in `secondPart`) or nothing is
placed and only `v` carries a distance. -/
def PtmInv (v vF vS : Block) (st : PTMState) : Prop :=
  Dict.get? st.firstDic v = some vF ∧
  Dict.get? st.secondDic v = some vS ∧
  v ∉ st.nodeSet ∧
  st.nodeSet.Nodup ∧
  (∀ x, (Dict.get? st.segDist x).getD (-1) ≠ -1 → x ∉ st.nodeSet) ∧
  ((vF ∈ st.firstPart.nodes ∧ vS ∈ st.secondPart.nodes) ∨
    ((∀ x, (Dict.get? st.segDist x).getD (-1) ≠ -1 → x = v) ∧
      st.nodeSet ≠ []))

/-- A two-block, dual-edged module for the `signReverse` witness. -/
def c10Module : MGraph :=
  { nodes := [(("a", 0, 100), (0, 50), Dir.plus),
              (("b", 0, 100), (10, 60), Dir.minus)],
    edges := [((("a", 0, 100), (0, 50), Dir.plus),
               (("b", 0, 100), (10, 60), Dir.minus), 0, [true, false, true]),
              ((("b", 0, 100), (10, 60), Dir.minus),
               (("a", 0, 100), (0, 50), Dir.plus), 0, [true, true, false])] }

/-! ## `checkPathOverlap` and module-module partition helpers -/

/-- `checkPathOverlap(moduleBlockPath, genePath)`: overlap test used by the
second exception handler of `moduleModulePartition`; `none` models the
implicit `None` return when no branch fires (unreachable over a linear
order, but kept faithful to the source's `elif` chain). -/
def checkPathOverlap (moduleBlockPath genePath : Ivl) :
    Option (Bool × Option Ivl × Int) :=
  let blockStart := moduleBlockPath.1
  let blockEnd := moduleBlockPath.2
  let geneStart := genePath.1
  let geneEnd := genePath.2
  if (blockStart ≤ geneStart ∧ blockEnd ≤ geneStart) ∨
      (geneEnd ≤ blockStart ∧ geneEnd ≤ blockEnd) then
    some (false, none, -1)
  else if geneStart ≥ blockStart ∧ geneEnd ≤ blockEnd then
    some (true, some (geneStart, geneEnd), geneEnd - geneStart)
  else if geneStart ≤ blockStart ∧ geneEnd ≥ blockEnd then
    some (true, some (blockStart, blockEnd), blockEnd - blockStart)
  else if blockStart ≥ geneStart ∧ blockStart ≤ geneEnd ∧ blockEnd ≥ geneEnd then
    some (true, some (blockStart, geneEnd), geneEnd - blockStart)
  else if geneStart ≥ blockStart ∧ blockEnd ≥ geneStart ∧ geneEnd ≥ blockEnd then
    some (true, some (geneStart, blockEnd), blockEnd - geneStart)
  else none

/-- `int(series)` under `try/except` with a `min` fallback: `int` of a
one-element pandas series is its value, any longer series raises and the
handler takes `int(min(list(series)))`; an empty series would raise
`ValueError` from `min`. -/
def intOfSeriesMin : List Int → Except String Int
  | [x] => .ok x
  | [] => .error "ValueError: min of an empty sequence"
  | x :: xs => .ok (xs.foldl min x)

/-- As `intOfSeriesMin`, with the `max` fallback. -/
def intOfSeriesMax : List Int → Except String Int
  | [x] => .ok x
  | [] => .error "ValueError: max of an empty sequence"
  | x :: xs => .ok (xs.foldl max x)

/-- The target-block scan of `joinTwoModules`: the LAST block of `nodes`
with the given node and path (the Python loop overwrites on every match). -/
def findTarget (nodes : List Block) (node : NodeT) (path : Ivl) :
    Option Block :=
  nodes.foldl (fun acc b => if b.1 = node ∧ b.2.1 = path then some b else acc)
    none

/-- The block scan of `reverseModuleOnDirection`. -/
def reverseModuleOnDirectionGo (node : NodeT) (path : Ivl) (direction : Dir)
    (module : MGraph) : List Block → Except String (Option MGraph)
  | [] => .ok none
  | aBlock :: rest =>
      if node = aBlock.1 ∧
          (aBlock.2.1.1 - 10 ≤ path.1 ∧ path.1 < aBlock.2.1.1 + 10) ∧
          (aBlock.2.1.2 - 30 ≤ path.2 ∧ path.2 < aBlock.2.1.2 + 30) then
        if direction = aBlock.2.2 then .ok (some module)
        else (signReverse module).map some
      else reverseModuleOnDirectionGo node path direction module rest

/-- `reverseModuleOnDirection(node, path, direction, module)`: find the
block of `module` fuzzily matching `(node, path)` (`path[0]` within
`range(block[0]-10, block[0]+10)`, `path[1]` within
`range(block[1]-30, block[1]+30)`); return the module as is when the
directions agree, its sign reversal when they differ, and `None`
(no further processing) when no block matches. -/
def reverseModuleOnDirection (node : NodeT) (path : Ivl) (direction : Dir)
    (module : MGraph) : Except String (Option MGraph) :=
  reverseModuleOnDirectionGo node path direction module module.nodes

/-- `joinTwoModules(moduleA, moduleB, ...)`: overlay `moduleB`'s blocks that
are new to `moduleA` (sign-reversed when the in-module directions differ)
and connect the two target blocks with the alignment arrays.  A missing
target block makes the source pass `None` (or a `None`-subscript) to
`add_edge`, raising; this embedding returns an error in that case. -/
def joinTwoModules (moduleA moduleB : MGraph) (nodeA : NodeT) (pathA : Ivl)
    (aDirection : Dir) (nodeB : NodeT) (pathB : Ivl) (bDirection : Dir)
    (arrayA arrayB : Mask) : Except String MGraph :=
  let aModuleList := moduleA.nodes
  let bModuleList := moduleB.nodes
  let targetA := findTarget aModuleList nodeA pathA
  let targetB := findTarget bModuleList nodeB pathB
  let aSet := aModuleList.map (fun b => (b.1, b.2.1))
  let leftOverBlocks := bModuleList.filter (fun b => (b.1, b.2.1) ∉ aSet)
  if leftOverBlocks.isEmpty then .ok moduleA
  else
    match targetA, targetB with
    | some tA, some tB =>
        let dA := tA.2.2
        let dB := tB.2.2
        let mBu := moduleB.subgraph leftOverBlocks
        if aDirection = bDirection then
          if dA = dB then
            let mU := MGraph.compose moduleA mBu
            if aDirection = dA then
              .ok ((mU.addEdgeAuto tA tB arrayA).addEdgeAuto tB tA arrayB)
            else
              .ok ((mU.addEdgeAuto tA tB arrayA.reverse).addEdgeAuto tB tA
                arrayB.reverse)
          else
            match signReverse mBu with
            | .error e => .error e
            | .ok mBr =>
                let mU := MGraph.compose moduleA mBr
                let tB2 := (tB.1, tB.2.1, dA)
                if aDirection = dA then
                  .ok ((mU.addEdgeAuto tA tB2 arrayA).addEdgeAuto tB2 tA
                    arrayB)
                else
                  .ok ((mU.addEdgeAuto tA tB2 arrayA.reverse).addEdgeAuto tB2
                    tA arrayB.reverse)
        else
          if dA = dB then
            match signReverse mBu with
            | .error e => .error e
            | .ok mBr =>
                let mU := MGraph.compose moduleA mBr
                if aDirection = dA then
                  let tB2 := (tB.1, tB.2.1, bDirection)
                  .ok ((mU.addEdgeAuto tA tB2 arrayA).addEdgeAuto tB2 tA
                    arrayB)
                else
                  let tB2 := (tB.1, tB.2.1, aDirection)
                  .ok ((mU.addEdgeAuto tA tB2 arrayA.reverse).addEdgeAuto tB2
                    tA arrayB.reverse)
          else
            let mU := MGraph.compose moduleA mBu
            if aDirection = dA then
              .ok ((mU.addEdgeAuto tA tB arrayA).addEdgeAuto tB tA arrayB)
            else
              .ok ((mU.addEdgeAuto tA tB arrayA.reverse).addEdgeAuto tB tA
                arrayB.reverse)
    | _, _ => .error "ValueError: None cannot be a node"

/-- `updateModuleModuleTuple(...)`: split the source block at the two
offsets and join the middle fragment's module with the destination module.
In the two-sided branch the joined module is NOT written back into
`updatedModuleList` (the source omits the write-back it performs in the
one-sided branches); a fall-through (startOffSet ≠ 0, endOffSet = 0)
returns `None` in the source, which the caller's tuple unpacking turns
into a `TypeError`. -/
def updateModuleModuleTuple (sourceNode : NodeT) (sourceToDestPath : Ivl)
    (block : Ivl) (startOffSet endOffSet : Int) (source_m_graph : MGraph)
    (destNode : NodeT) (destToSourcePath : Ivl)
    (sourceDirection destDirection blockDirection : Dir)
    (dest_m_graph : MGraph) (sourceToDestArray destToSourceArray : Mask) :
    Except String (MGraph × List MGraph) :=
  if startOffSet = 0 ∧ block.1 + endOffSet = block.2 then
    (joinTwoModules source_m_graph dest_m_graph sourceNode sourceToDestPath
      sourceDirection destNode destToSourcePath destDirection
      sourceToDestArray destToSourceArray).map (fun m => (m, [m]))
  else if startOffSet = 0 then
    match partitionToTwoModules (sourceNode, block, blockDirection) endOffSet
        source_m_graph with
    | .error e => .error e
    | .ok (m1, m2) =>
        let newModule := if blockDirection = Dir.plus then m1 else m2
        match joinTwoModules newModule dest_m_graph sourceNode
            sourceToDestPath sourceDirection destNode destToSourcePath
            destDirection sourceToDestArray destToSourceArray with
        | .error e => .error e
        | .ok nm =>
            .ok (nm, if blockDirection = Dir.plus then [nm, m2] else [m1, nm])
  else if block.1 + endOffSet = block.2 then
    match partitionToTwoModules (sourceNode, block, blockDirection)
        startOffSet source_m_graph with
    | .error e => .error e
    | .ok (m1, m2) =>
        let newModule := if blockDirection = Dir.plus then m2 else m1
        match joinTwoModules newModule dest_m_graph sourceNode
            sourceToDestPath sourceDirection destNode destToSourcePath
            destDirection sourceToDestArray destToSourceArray with
        | .error e => .error e
        | .ok nm =>
            .ok (nm, if blockDirection = Dir.plus then [m1, nm] else [nm, m2])
  else if startOffSet ≠ 0 ∧ endOffSet ≠ 0 then
    match partitionToTwoModules (sourceNode, block, blockDirection) endOffSet
        source_m_graph with
    | .error e => .error e
    | .ok (f1, f2) =>
        let newBlockNode := (sourceNode, (block.1, block.1 + endOffSet),
          blockDirection)
        let targetModule := if blockDirection = Dir.plus then f1 else f2
        match partitionToTwoModules newBlockNode startOffSet targetModule with
        | .error e => .error e
        | .ok (s1, s2) =>
            let updatedModuleList :=
              if blockDirection = Dir.plus then [s1, s2, f2] else [s2, s1, f1]
            let middle := if blockDirection = Dir.plus then s2 else s1
            match joinTwoModules middle dest_m_graph sourceNode
                sourceToDestPath sourceDirection destNode destToSourcePath
                destDirection sourceToDestArray destToSourceArray with
            | .error e => .error e
            | .ok nm => .ok (nm, updatedModuleList)
  else .error "TypeError: cannot unpack None"

/-- `checkModuleModuleOverlap(...)`: when the blast path sits inside the
source block, rebuild the modules from `updateModuleModuleTuple`'s output;
otherwise the source returns `None`, which the caller unpacks — a
`TypeError`. -/
def checkModuleModuleOverlap (blockNode : Block) (source_m_graph : MGraph)
    (sourceNode destNode : NodeT) (sourceToDestPath destToSourcePath : Ivl)
    (sourceDirection destDirection : Dir) (dest_m_graph : MGraph)
    (sourceToDestArray destToSourceArray : Mask)
    (n2p : NodesDict) (p2m : PathsDict) :
    Except String (NodesDict × PathsDict) :=
  let small := sourceToDestPath.1
  let big := sourceToDestPath.2
  if small ≥ blockNode.2.1.1 ∧ big ≤ blockNode.2.1.2 then
    let startOffSet := small - blockNode.2.1.1
    let endOffSet := big - blockNode.2.1.1
    match updateModuleModuleTuple blockNode.1 sourceToDestPath blockNode.2.1
        startOffSet endOffSet source_m_graph destNode destToSourcePath
        sourceDirection destDirection blockNode.2.2 dest_m_graph
        sourceToDestArray destToSourceArray with
    | .error e => .error e
    | .ok (_, updatedModuleList) =>
        let st1 := removeOldModule source_m_graph n2p p2m
        let st2 := removeOldModule dest_m_graph st1.1 st1.2
        .ok (updatedModuleList.foldl
          (fun st m => updateNewModule m st.1 st.2 20) st2)
  else .error "TypeError: cannot unpack None"

/-- `chopModulesAndUpdateGraph(listOfModules, node, path, direction, ...)`:
walk the modules holding blocks of `node` that overlap `path`; the first
overlapping block is split against `path` (every branch of the source's
four-way case analysis returns, so at most one block per module is
processed), recursing on the leftover sub-paths.  Python recursion depth is
modelled by `fuel` (also consumed when stepping the module list, so callers
pass a generous budget); exhaustion models `RecursionError`.  The
`currentModuleUpdateDic` is keyed by module graphs: CPython hashes them by
object identity, embedded here as structural keys — the two agree on the
runs below, where all live modules are structurally distinct.  The final
`else` of the block case split is reached exactly when
`pathStart ≤ blockStart ∧ pathEnd ≥ blockEnd` (the source's fourth `elif`),
since the other three cases exhaust the remaining integer orderings. -/
def chopModulesAndUpdateGraph :
    Nat → List MGraph → NodeT → Ivl → Dir → Dict Block MGraph →
    Dict MGraph (List MGraph) → NodesDict → PathsDict →
    Except String (Dict Block MGraph × Dict MGraph (List MGraph))
  | 0, _, _, _, _, _, _, _, _ =>
      .error "RecursionError: maximum recursion depth exceeded"
  | _ + 1, [], _, _, _, cpbd, cmud, _, _ => .ok (cpbd, cmud)
  | fuel + 1, m_graph :: tail, node, path, direction, cpbd, cmud, n2p, p2m =>
      let pathStart := path.1
      let pathEnd := path.2
      let rows := m_graph.nodes.filter (fun b => b.1 = node)
      if rows.isEmpty then
        chopModulesAndUpdateGraph fuel tail node path direction cpbd cmud
          n2p p2m
      else
        let qualified := rows.filter (fun b =>
          ¬(pathStart ≤ b.2.1.1 ∧ pathEnd ≤ b.2.1.1) ∧
          ¬(pathStart ≥ b.2.1.2 ∧ pathEnd ≥ b.2.1.2))
        match qualified with
        | [] =>
            chopModulesAndUpdateGraph fuel tail node path direction cpbd cmud
              n2p p2m
        | aBlock :: _ =>
            let blockStart := aBlock.2.1.1
            let blockEnd := aBlock.2.1.2
            let blockDirection := aBlock.2.2
            if blockStart ≤ pathStart ∧ pathEnd ≤ blockEnd then
              let leftOffset := pathStart - blockStart
              let rightOffset := pathEnd - blockStart
              if pathStart = blockStart ∧ pathEnd = blockEnd then
                .ok (Dict.set cpbd (node, path, direction) m_graph, cmud)
              else if pathStart = blockStart then
                match partitionToTwoModules aBlock rightOffset m_graph with
                | .error e => .error e
                | .ok (u0, u1) =>
                    .ok (Dict.set cpbd (node, path, direction)
                        (if blockDirection = Dir.plus then u0 else u1),
                      Dict.set cmud m_graph [u0, u1])
              else if pathEnd = blockEnd then
                match partitionToTwoModules aBlock leftOffset m_graph with
                | .error e => .error e
                | .ok (u0, u1) =>
                    .ok (Dict.set cpbd (node, path, direction)
                        (if blockDirection = Dir.plus then u1 else u0),
                      Dict.set cmud m_graph [u0, u1])
              else
                match partitionToTwoModules aBlock rightOffset m_graph with
                | .error e => .error e
                | .ok (f1, f2) =>
                    let newBlockNode := (aBlock.1,
                      (blockStart, blockStart + rightOffset), blockDirection)
                    let targetModule :=
                      if blockDirection = Dir.plus then f1 else f2
                    match partitionToTwoModules newBlockNode leftOffset
                        targetModule with
                    | .error e => .error e
                    | .ok (s1, s2) =>
                        let updatedModuleList :=
                          if blockDirection = Dir.plus then [s1, s2, f2]
                          else [s2, s1, f1]
                        .ok (Dict.set cpbd (node, path, direction)
                            (if blockDirection = Dir.plus then s2 else s1),
                          Dict.set cmud m_graph updatedModuleList)
            else if pathStart ≥ blockStart ∧ pathEnd ≥ blockEnd then
              let step1 : Except String
                  (Dict Block MGraph × Dict MGraph (List MGraph)) :=
                if pathStart - blockStart > 0 ∧ blockEnd - pathStart ≠ 0 then
                  match partitionToTwoModules aBlock (pathStart - blockStart)
                      m_graph with
                  | .error e => .error e
                  | .ok (u0, u1) =>
                      .ok (Dict.set cpbd (node, (pathStart, blockEnd),
                          direction)
                          (if blockDirection = Dir.plus then u1 else u0),
                        if pathStart ≠ blockEnd then
                          Dict.set cmud m_graph [u0, u1]
                        else cmud)
                else
                  .ok (Dict.set cpbd (node, (pathStart, blockEnd), direction)
                    m_graph, cmud)
              match step1 with
              | .error e => .error e
              | .ok (cpbd1, cmud1) =>
                  chopModulesAndUpdateGraph fuel (m_graph :: tail) node
                    (blockEnd, pathEnd) direction cpbd1 cmud1 n2p p2m
            else if pathStart ≤ blockStart ∧ pathEnd ≤ blockEnd then
              let step1 : Except String
                  (Dict Block MGraph × Dict MGraph (List MGraph)) :=
                if pathEnd - blockStart > 0 ∧ blockEnd - pathEnd ≠ 0 then
                  match partitionToTwoModules aBlock (pathEnd - blockStart)
                      m_graph with
                  | .error e => .error e
                  | .ok (u0, u1) =>
                      .ok (Dict.set cpbd (node, (blockStart, pathEnd),
                          direction)
                          (if blockDirection = Dir.plus then u0 else u1),
                        if pathEnd ≠ blockEnd then
                          Dict.set cmud m_graph [u0, u1]
                        else cmud)
                else
                  .ok (Dict.set cpbd (node, (blockStart, pathEnd), direction)
                    m_graph, cmud)
              match step1 with
              | .error e => .error e
              | .ok (cpbd1, cmud1) =>
                  chopModulesAndUpdateGraph fuel (m_graph :: tail) node
                    (pathStart, blockStart) direction cpbd1 cmud1 n2p p2m
            else
              let cpbd1 := Dict.set cpbd (node, (blockStart, blockEnd),
                direction) m_graph
              match chopModulesAndUpdateGraph fuel (m_graph :: tail) node
                  (pathStart, blockStart) direction cpbd1 cmud n2p p2m with
              | .error e => .error e
              | .ok (cpbd2, cmud2) =>
                  let overlappedPairs := bedtoolCall node n2p
                    (blockEnd, pathEnd)
                  match overlappedPairs.mapM (fun pr =>
                      exceptOfOption (Dict.get? p2m pr) "KeyError") with
                  | .error e => .error e
                  | .ok modulesToBeVisited =>
                      chopModulesAndUpdateGraph fuel modulesToBeVisited node
                        (blockEnd, pathEnd) direction cpbd2 cmud2 n2p p2m

/-- Outcome of the first (overlap-truncation) loop of
`recursiveModuleVSModuleChecking`: an early `return`, a `break` into the
second loop, or a tail recursion with truncated paths and re-chopped
destination module. -/
inductive P1Out where
  | ret (n2p : NodesDict) (p2m : PathsDict)
  | toPhase2 (n2p : NodesDict) (p2m : PathsDict)
  | recur (s2d d2s : Ivl) (dcm : MGraph) (n2p : NodesDict) (p2m : PathsDict)
      (srcArr dstArr : Mask)

/-- The first loop of `recursiveModuleVSModuleChecking` (source lines
1020-1101 tail case, 1102-1150 head case).  `tuple(dest_m_graph) == module`
compares a tuple with a list and is always `False` in Python, so that
`return` is dead code and is omitted.  Note the source truncates
`sourceToDestPath` BEFORE computing `offset`, so in the tail case
`offset = newLeft - sourceToDestPath[0] = 0` (treated as 1 by
`choppedIndex`), and in the head case's `-` re-slice
`int(sourceToDestPath[1]) - newRight = 0` likewise. -/
def rmvmPhase1 (sourceNode destNode : NodeT) (s2d d2s : Ivl)
    (sourceDirection destDirection : Dir) (dest_m_graph cdm : MGraph)
    (srcArr dstArr : Mask) :
    List MGraph → NodesDict → PathsDict → Except String P1Out
  | [], n2p, p2m => .ok (.toPhase2 n2p p2m)
  | source_m_graph :: rest, n2p, p2m =>
      let module := source_m_graph.nodes
      let sourceFamily := module.filter (fun b =>
        b.1 = sourceNode ∧ b.2.1.1 ≤ s2d.1 ∧ b.2.1.2 ≥ s2d.2)
      let destFamily := module.filter (fun b =>
        b.1 = destNode ∧ b.2.1.1 ≤ d2s.1 ∧ b.2.1.2 ≥ d2s.2)
      if ¬ sourceFamily.isEmpty ∧ ¬ destFamily.isEmpty then .ok (.ret n2p p2m)
      else
        let destInModule := module.filter (fun b => b.1 = destNode)
        if destInModule.isEmpty then
          rmvmPhase1 sourceNode destNode s2d d2s sourceDirection
            destDirection dest_m_graph cdm srcArr dstArr rest n2p p2m
        else
          let tailOv := module.filter (fun b =>
            b.1 = sourceNode ∧ b.2.1.1 ≤ s2d.1 ∧ b.2.1.2 > s2d.1)
          let headOv := module.filter (fun b =>
            b.1 = sourceNode ∧ b.2.1.1 < s2d.2 ∧ b.2.1.2 ≥ s2d.2)
          let perfect := module.filter (fun b =>
            b.1 = sourceNode ∧ b.2.1.1 = s2d.1 ∧ b.2.1.2 = s2d.2)
          if ¬ perfect.isEmpty ∧ dest_m_graph.nodes.length = 1 then
            .ok (.toPhase2 n2p p2m)
          else if ¬ tailOv.isEmpty then
            match intOfSeriesMin (tailOv.map (fun b => b.2.1.2)) with
            | .error e => .error e
            | .ok newLeft =>
              if newLeft - s2d.1 > 100 then .ok (.ret n2p p2m)
              else if newLeft ≥ s2d.2 then .ok (.ret n2p p2m)
              else if s2d.2 - newLeft < 50 then .ok (.ret n2p p2m)
              else
                match choppedIndex srcArr (newLeft - newLeft) with
                | .error e => .error e
                | .ok boundary =>
                  let leftOverDst := pyTake dstArr boundary
                  let corrSrc := pyDrop srcArr boundary
                  let corrDst := pyDrop dstArr boundary
                  let st1 := removeOldModule dest_m_graph n2p p2m
                  if sourceDirection = destDirection then
                    let newLeft2 := d2s.1 + (countOnes leftOverDst : Int)
                    match partitionToTwoModules (destNode, d2s, destDirection)
                        (countOnes leftOverDst : Int) cdm with
                    | .error e => .error e
                    | .ok (c0, c1) =>
                      let dcm := if destDirection = Dir.plus then c1 else c0
                      let st2 := updateNewModule c0 st1.1 st1.2 20
                      let st3 := updateNewModule c1 st2.1 st2.2 20
                      .ok (.recur (newLeft, s2d.2) (newLeft2, d2s.2) dcm
                        st3.1 st3.2 corrSrc corrDst)
                  else
                    let resliced : Except String (Mask × Mask × Mask) :=
                      if sourceDirection = Dir.minus then
                        match choppedIndex srcArr (s2d.2 - newLeft) with
                        | .error e => .error e
                        | .ok b2 =>
                            .ok (pyDrop dstArr b2, pyTake srcArr b2,
                              pyTake dstArr b2)
                      else .ok (leftOverDst, corrSrc, corrDst)
                    match resliced with
                    | .error e => .error e
                    | .ok (loD, coS, coD) =>
                      let newRight := d2s.2 - (countOnes loD : Int)
                      match partitionToTwoModules
                          (destNode, d2s, destDirection)
                          (newRight - d2s.1) cdm with
                      | .error e => .error e
                      | .ok (c0, c1) =>
                        let dcm := if destDirection = Dir.plus then c0 else c1
                        let st2 := updateNewModule c0 st1.1 st1.2 20
                        let st3 := updateNewModule c1 st2.1 st2.2 20
                        .ok (.recur (newLeft, s2d.2) (d2s.1, newRight) dcm
                          st3.1 st3.2 coS coD)
          else if ¬ headOv.isEmpty then
            match intOfSeriesMax (headOv.map (fun b => b.2.1.1)) with
            | .error e => .error e
            | .ok newRight =>
              if s2d.2 - newRight > 100 then .ok (.ret n2p p2m)
              else if newRight ≤ s2d.1 then .ok (.ret n2p p2m)
              else if newRight - s2d.1 < 50 then .ok (.ret n2p p2m)
              else
                match choppedIndex srcArr (newRight - s2d.1) with
                | .error e => .error e
                | .ok boundary =>
                  let corrSrc := pyTake srcArr boundary
                  let corrDst := pyTake dstArr boundary
                  let st1 := removeOldModule dest_m_graph n2p p2m
                  if sourceDirection = destDirection then
                    let newRight2 := d2s.1 + (countOnes corrDst : Int)
                    match partitionToTwoModules (destNode, d2s, destDirection)
                        (countOnes corrDst : Int) cdm with
                    | .error e => .error e
                    | .ok (c0, c1) =>
                      let dcm := if destDirection = Dir.plus then c0 else c1
                      let st2 := updateNewModule c0 st1.1 st1.2 20
                      let st3 := updateNewModule c1 st2.1 st2.2 20
                      .ok (.recur (s2d.1, newRight) (d2s.1, newRight2) dcm
                        st3.1 st3.2 corrSrc corrDst)
                  else
                    let resliced : Except String (Mask × Mask) :=
                      if sourceDirection = Dir.minus then
                        match choppedIndex srcArr (newRight - newRight) with
                        | .error e => .error e
                        | .ok b2 =>
                            .ok (pyDrop srcArr b2, pyDrop dstArr b2)
                      else .ok (corrSrc, corrDst)
                    match resliced with
                    | .error e => .error e
                    | .ok (coS, coD) =>
                      let newLeft := d2s.2 - (countOnes coD : Int)
                      match partitionToTwoModules
                          (destNode, d2s, destDirection)
                          (newLeft - d2s.1) cdm with
                      | .error e => .error e
                      | .ok (c0, c1) =>
                        let dcm := if destDirection = Dir.plus then c1 else c0
                        let st2 := updateNewModule c0 st1.1 st1.2 20
                        let st3 := updateNewModule c1 st2.1 st2.2 20
                        .ok (.recur (s2d.1, newRight) (newLeft, d2s.2) dcm
                          st3.1 st3.2 coS coD)
          else
            rmvmPhase1 sourceNode destNode s2d d2s sourceDirection
              destDirection dest_m_graph cdm srcArr dstArr rest n2p p2m

/-- The second loop of `recursiveModuleVSModuleChecking` (source lines
1152-1343): find the first live source module with a block of `sourceNode`
overlapping the source path and split it against the path; `rec2` is the
recursive call at the current fuel level (`source_m_graph is dest_m_graph`
is object identity, embedded structurally — the runs proved below keep all
live modules structurally distinct). -/
def rmvmPhase2
    (rec2 : List MGraph → Ivl → Ivl → MGraph → NodesDict → PathsDict →
      Mask → Mask → Except String (NodesDict × PathsDict))
    (sourceNode destNode : NodeT) (s2d d2s : Ivl)
    (sourceDirection destDirection : Dir) (dest_m_graph cdm : MGraph)
    (srcArr dstArr : Mask) :
    List MGraph → NodesDict → PathsDict →
    Except String (NodesDict × PathsDict)
  | [], n2p, p2m => .ok (n2p, p2m)
  | source_m_graph :: rest, n2p, p2m =>
      if source_m_graph ∉ p2m.values then
        rmvmPhase2 rec2 sourceNode destNode s2d d2s sourceDirection
          destDirection dest_m_graph cdm srcArr dstArr rest n2p p2m
      else
        let rows := source_m_graph.nodes.filter (fun b => b.1 = sourceNode)
        let qualified := rows.filter (fun b =>
          ¬(s2d.1 ≤ b.2.1.1 ∧ s2d.2 ≤ b.2.1.1) ∧
          ¬(s2d.1 ≥ b.2.1.2 ∧ s2d.2 ≥ b.2.1.2))
        match qualified with
        | [] =>
            rmvmPhase2 rec2 sourceNode destNode s2d d2s sourceDirection
              destDirection dest_m_graph cdm srcArr dstArr rest n2p p2m
        | aBlock :: _ =>
            let bs := aBlock.2.1.1
            let be := aBlock.2.1.2
            if bs ≤ s2d.1 ∧ s2d.2 ≤ be then
              checkModuleModuleOverlap aBlock source_m_graph sourceNode
                destNode s2d d2s sourceDirection destDirection dest_m_graph
                srcArr dstArr n2p p2m
            else if s2d.1 ≤ bs ∧ s2d.2 ≤ be then
              if source_m_graph = dest_m_graph then .ok (n2p, p2m)
              else
                match choppedIndex srcArr (bs - s2d.1) with
                | .error e => .error e
                | .ok boundary =>
                  let loS := pyTake srcArr boundary
                  let coS := pyDrop srcArr boundary
                  let loD := pyTake dstArr boundary
                  let coD := pyDrop dstArr boundary
                  let st1 := removeOldModule dest_m_graph n2p p2m
                  let branch : Except String
                      (MGraph × MGraph × Ivl × Ivl × Mask × Mask × Mask ×
                        Mask) :=
                    if sourceDirection = destDirection then
                      let newLeft := d2s.1 + (countOnes loD : Int)
                      match partitionToTwoModules
                          (destNode, d2s, destDirection)
                          (countOnes loD : Int) cdm with
                      | .error e => .error e
                      | .ok (c0, c1) =>
                          .ok (if destDirection = Dir.plus then c1 else c0,
                            if destDirection = Dir.plus then c0 else c1,
                            (newLeft, d2s.2), (d2s.1, newLeft),
                            coS, coD, loS, loD)
                    else
                      let resliced : Except String (Mask × Mask × Mask ×
                          Mask) :=
                        if sourceDirection = Dir.minus then
                          match choppedIndex srcArr (s2d.2 - bs) with
                          | .error e => .error e
                          | .ok b2 =>
                              .ok (pyDrop srcArr b2, pyTake srcArr b2,
                                pyDrop dstArr b2, pyTake dstArr b2)
                        else .ok (loS, coS, loD, coD)
                      match resliced with
                      | .error e => .error e
                      | .ok (loS2, coS2, loD2, coD2) =>
                        let newRight := d2s.1 + (countOnes coD2 : Int)
                        match partitionToTwoModules
                            (destNode, d2s, destDirection)
                            (newRight - d2s.1) cdm with
                        | .error e => .error e
                        | .ok (c0, c1) =>
                            .ok (if destDirection = Dir.plus then c0 else c1,
                              if destDirection = Dir.plus then c1 else c0,
                              (d2s.1, newRight), (newRight, d2s.2),
                              coS2, coD2, loS2, loD2)
                  match branch with
                  | .error e => .error e
                  | .ok (dcm2, residueList, newD2s, residue, coS2, coD2,
                      loS2, loD2) =>
                    let st2 := updateNewModule
                      (if destDirection = Dir.plus then residueList else dcm2)
                      st1.1 st1.2 20
                    let st3 := updateNewModule
                      (if destDirection = Dir.plus then dcm2 else residueList)
                      st2.1 st2.2 20
                    match checkModuleModuleOverlap aBlock source_m_graph
                        sourceNode destNode (bs, s2d.2) newD2s
                        sourceDirection destDirection dcm2 coS2 coD2
                        st3.1 st3.2 with
                    | .error e => .error e
                    | .ok (n2p4, p2m4) =>
                        let overlappedPairs := bedtoolCall sourceNode n2p4
                          (s2d.1, bs)
                        match overlappedPairs.mapM (fun pr =>
                            exceptOfOption (Dict.get? p2m4 pr)
                              "KeyError") with
                        | .error e => .error e
                        | .ok modulesToBeVisited =>
                            rec2 modulesToBeVisited (s2d.1, bs) residue
                              residueList n2p4 p2m4 loS2 loD2
            else if s2d.1 ≥ bs ∧ s2d.2 ≥ be then
              if source_m_graph = dest_m_graph then .ok (n2p, p2m)
              else
                match choppedIndex srcArr (be - s2d.1) with
                | .error e => .error e
                | .ok boundary =>
                  let coS := pyTake srcArr boundary
                  let loS := pyDrop srcArr boundary
                  let coD := pyTake dstArr boundary
                  let loD := pyDrop dstArr boundary
                  let st1 := removeOldModule dest_m_graph n2p p2m
                  let branch : Except String
                      (MGraph × MGraph × Ivl × Ivl × Mask × Mask × Mask ×
                        Mask) :=
                    if sourceDirection = destDirection then
                      let newRight := d2s.1 + (countOnes coD : Int)
                      match partitionToTwoModules
                          (destNode, d2s, destDirection)
                          (countOnes coD : Int) cdm with
                      | .error e => .error e
                      | .ok (c0, c1) =>
                          .ok (if destDirection = Dir.plus then c0 else c1,
                            if destDirection = Dir.plus then c1 else c0,
                            (d2s.1, newRight), (newRight, d2s.2),
                            coS, coD, loS, loD)
                    else
                      let resliced : Except String (Mask × Mask × Mask ×
                          Mask) :=
                        if sourceDirection = Dir.minus then
                          match choppedIndex srcArr (s2d.2 - be) with
                          | .error e => .error e
                          | .ok b2 =>
                              .ok (pyTake srcArr b2, pyDrop srcArr b2,
                                pyTake dstArr b2, pyDrop dstArr b2)
                        else .ok (loS, coS, loD, coD)
                      match resliced with
                      | .error e => .error e
                      | .ok (loS2, coS2, loD2, coD2) =>
                        let newLeft := d2s.1 + (countOnes loD2 : Int)
                        match partitionToTwoModules
                            (destNode, d2s, destDirection)
                            (newLeft - d2s.1) cdm with
                        | .error e => .error e
                        | .ok (c0, c1) =>
                            .ok (if destDirection = Dir.plus then c1 else c0,
                              if destDirection = Dir.plus then c0 else c1,
                              (newLeft, d2s.2), (d2s.1, newLeft),
                              coS2, coD2, loS2, loD2)
                  match branch with
                  | .error e => .error e
                  | .ok (dcm2, residueList, newD2s, residue, coS2, coD2,
                      loS2, loD2) =>
                    let st2 := updateNewModule
                      (if destDirection = Dir.plus then
                        (if sourceDirection = destDirection then dcm2
                          else residueList)
                      else
                        (if sourceDirection = destDirection then residueList
                          else dcm2))
                      st1.1 st1.2 20
                    let st3 := updateNewModule
                      (if destDirection = Dir.plus then
                        (if sourceDirection = destDirection then residueList
                          else dcm2)
                      else
                        (if sourceDirection = destDirection then dcm2
                          else residueList))
                      st2.1 st2.2 20
                    match checkModuleModuleOverlap aBlock source_m_graph
                        sourceNode destNode (s2d.1, be) newD2s
                        sourceDirection destDirection dcm2 coS2 coD2
                        st3.1 st3.2 with
                    | .error e => .error e
                    | .ok (n2p4, p2m4) =>
                        let overlappedPairs := bedtoolCall sourceNode n2p4
                          (be, s2d.2)
                        match overlappedPairs.mapM (fun pr =>
                            exceptOfOption (Dict.get? p2m4 pr)
                              "KeyError") with
                        | .error e => .error e
                        | .ok modulesToBeVisited =>
                            rec2 modulesToBeVisited (be, s2d.2) residue
                              residueList n2p4 p2m4 loS2 loD2
            else
              if source_m_graph = dest_m_graph then .ok (n2p, p2m)
              else
                let st1 := removeOldModule dest_m_graph n2p p2m
                match choppedIndex srcArr (bs - s2d.1) with
                | .error e => .error e
                | .ok b1 =>
                match choppedIndex srcArr (be - s2d.1) with
                | .error e => .error e
                | .ok b2 =>
                  let leftS := pyTake srcArr b1
                  let midS := pySlice srcArr b1 b2
                  let rightS := pyDrop srcArr b2
                  let leftD := pyTake dstArr b1
                  let midD := pySlice dstArr b1 b2
                  let rightD := pyDrop dstArr b2
                  let branch : Except String
                      (MGraph × MGraph × MGraph × Ivl × Ivl × Ivl × Mask ×
                        Mask × Mask × Mask × Mask × Mask) :=
                    if sourceDirection = destDirection then
                      let newLeft := d2s.1 + (countOnes leftD : Int)
                      let newRight := newLeft + (countOnes midD : Int)
                      match partitionToTwoModules
                          (destNode, d2s, destDirection)
                          (newRight - d2s.1) cdm with
                      | .error e => .error e
                      | .ok (f1, f2) =>
                        let newBlockNode := (destNode, (d2s.1, newRight),
                          destDirection)
                        let targetModule :=
                          if destDirection = Dir.plus then f1 else f2
                        match partitionToTwoModules newBlockNode
                            (newLeft - d2s.1) targetModule with
                        | .error e => .error e
                        | .ok (g1, g2) =>
                          let u0 :=
                            if destDirection = Dir.plus then g1 else g2
                          let u1 :=
                            if destDirection = Dir.plus then g2 else g1
                          let u2 :=
                            if destDirection = Dir.plus then f2 else f1
                          .ok (u0, u1, u2, (newLeft, newRight),
                            (d2s.1, newLeft), (newRight, d2s.2),
                            leftS, midS, rightS, leftD, midD, rightD)
                    else
                      let resliced : Except String (Mask × Mask × Mask ×
                          Mask × Mask × Mask) :=
                        if sourceDirection = Dir.minus then
                          match choppedIndex srcArr (s2d.2 - be) with
                          | .error e => .error e
                          | .ok c1 =>
                          match choppedIndex srcArr (s2d.2 - bs) with
                          | .error e => .error e
                          | .ok c2 =>
                              .ok (pyDrop srcArr c2, pySlice srcArr c1 c2,
                                pyTake srcArr c1, pyDrop dstArr c2,
                                pySlice dstArr c1 c2, pyTake dstArr c1)
                        else .ok (leftS, midS, rightS, leftD, midD, rightD)
                      match resliced with
                      | .error e => .error e
                      | .ok (leftS2, midS2, rightS2, leftD2, midD2,
                          rightD2) =>
                        let newRight := d2s.2 - (countOnes leftD2 : Int)
                        let newLeft := newRight - (countOnes midD2 : Int)
                        match partitionToTwoModules
                            (destNode, d2s, destDirection)
                            (newRight - d2s.1) cdm with
                        | .error e => .error e
                        | .ok (f1, f2) =>
                          let newBlockNode := (destNode, (d2s.1, newRight),
                            destDirection)
                          let targetModule :=
                            if destDirection = Dir.plus then f1 else f2
                          match partitionToTwoModules newBlockNode
                              (newLeft - d2s.1) targetModule with
                          | .error e => .error e
                          | .ok (g1, g2) =>
                            let u0 :=
                              if destDirection = Dir.plus then f2 else f1
                            let u1 :=
                              if destDirection = Dir.plus then g2 else g1
                            let u2 :=
                              if destDirection = Dir.plus then g1 else g2
                            .ok (u0, u1, u2, (newLeft, newRight),
                              (newRight, d2s.2), (d2s.1, newLeft),
                              leftS2, midS2, rightS2, leftD2, midD2, rightD2)
                  match branch with
                  | .error e => .error e
                  | .ok (u0, u1, u2, midPath, residue1, residue2, leftS2,
                      midS2, rightS2, leftD2, midD2, rightD2) =>
                    let st2 := updateNewModule u0 st1.1 st1.2 20
                    let st3 := updateNewModule u1 st2.1 st2.2 20
                    let st4 := updateNewModule u2 st3.1 st3.2 20
                    match checkModuleModuleOverlap aBlock source_m_graph
                        sourceNode destNode (bs, be) midPath
                        sourceDirection destDirection u1 midS2 midD2
                        st4.1 st4.2 with
                    | .error e => .error e
                    | .ok (n2p5, p2m5) =>
                      let pairs1 := bedtoolCall sourceNode n2p5 (s2d.1, bs)
                      match pairs1.mapM (fun pr =>
                          exceptOfOption (Dict.get? p2m5 pr) "KeyError") with
                      | .error e => .error e
                      | .ok mods1 =>
                        match rec2 mods1 (s2d.1, bs) residue1 u0 n2p5 p2m5
                            leftS2 leftD2 with
                        | .error e => .error e
                        | .ok (n2p6, p2m6) =>
                          let pairs2 := bedtoolCall sourceNode n2p6
                            (be, s2d.2)
                          match pairs2.mapM (fun pr =>
                              exceptOfOption (Dict.get? p2m6 pr)
                                "KeyError") with
                          | .error e => .error e
                          | .ok mods2 =>
                              rec2 mods2 (be, s2d.2) residue2 u2 n2p6 p2m6
                                rightS2 rightD2

/-- `recursiveModuleVSModuleChecking(...)`: orient the destination module,
apply the early returns, run the overlap-truncation loop (phase 1) and then
the partition loop (phase 2).  Fuel models Python's recursion limit. -/
def recursiveModuleVSModuleChecking :
    Nat → List MGraph → NodeT → NodeT → Ivl → Ivl → Dir → Dir → MGraph →
    NodesDict → PathsDict → Mask → Mask →
    Except String (NodesDict × PathsDict)
  | 0, _, _, _, _, _, _, _, _, _, _, _, _ =>
      .error "RecursionError: maximum recursion depth exceeded"
  | fuel + 1, listOfModules, sourceNode, destNode, s2d, d2s, sDir, dDir,
      dest_m_graph, n2p, p2m, srcArr, dstArr =>
      match reverseModuleOnDirection destNode d2s dDir dest_m_graph with
      | .error e => .error e
      | .ok none => .ok (n2p, p2m)
      | .ok (some cdm) =>
          if s2d.2 - s2d.1 < 20 then .ok (n2p, p2m)
          else if dest_m_graph ∉ p2m.values then .ok (n2p, p2m)
          else
            match rmvmPhase1 sourceNode destNode s2d d2s sDir dDir
                dest_m_graph cdm srcArr dstArr listOfModules n2p p2m with
            | .error e => .error e
            | .ok (.ret d1 d2) => .ok (d1, d2)
            | .ok (.recur s2d2 d2s2 dcm d1 d2 sa da) =>
                recursiveModuleVSModuleChecking fuel listOfModules sourceNode
                  destNode s2d2 d2s2 sDir dDir dcm d1 d2 sa da
            | .ok (.toPhase2 d1 d2) =>
                rmvmPhase2
                  (fun mods a b m e1 e2 x y =>
                    recursiveModuleVSModuleChecking fuel mods sourceNode
                      destNode a b sDir dDir m e1 e2 x y)
                  sourceNode destNode s2d d2s sDir dDir dest_m_graph cdm
                  srcArr dstArr listOfModules d1 d2

/-- Forward closure of a block under the directed edges (breadth-first
layers; `fuel = |nodes|` always suffices since the accumulator grows on
every productive step). -/
def reachableAux (g : MGraph) : Nat → List Block → List Block
  | 0, acc => acc
  | fuel + 1, acc =>
      let nxt := acc.flatMap (fun x =>
        ((g.edges.filter (fun e => e.1 = x)).map (fun e => e.2.1)))
      let nw := (dedupKeepFirst nxt).filter (fun y => y ∉ acc)
      if nw.isEmpty then acc else reachableAux g fuel (acc ++ nw)

/-- All blocks reachable from `u` along directed edges, `u` included. -/
def reachable (g : MGraph) (u : Block) : List Block :=
  reachableAux g g.nodes.length [u]

/-- `nx.strongly_connected_components(g)` yields more than one component
exactly when some node cannot reach some other node (for a nonempty graph);
an empty graph yields no components at all.  This is the semantic content of
the handler's `ccIndex > 0` test. -/
def multiSCC (g : MGraph) : Bool :=
  g.nodes.any (fun u => g.nodes.any (fun v => v ∉ reachable g u))

/-- The first exception handler's pruning loop (`moduleModulePartition`
lines 1361-1366): drop every module that splits into more than one strongly
connected component. -/
def pruneMultiSCC (n2p : NodesDict) (p2m : PathsDict) :
    NodesDict × PathsDict :=
  (p2m.values).foldl
    (fun st g => if multiSCC g then removeOldModule g st.1 st.2 else st)
    (n2p, p2m)

/-- The second exception handler's pruning loop (`moduleModulePartition`
lines 1416-1433): its `pathRecord` defaultdict starts empty and IS NEVER
APPENDED TO, so the inner `for visitedPath in pathRecord[node]` loop never
executes, `checkPathOverlap` is never called, and no module is ever removed
— the loop is dead code and the handler restores its copies unchanged. -/
def pruneOverlapping (n2p : NodesDict) (p2m : PathsDict) :
    NodesDict × PathsDict :=
  (p2m.values).foldl
    (fun st g =>
      g.nodes.foldl
        (fun st2 block =>
          (ddGet ([] : NodesDict) block.1).foldl (fun st3 _ => st3) st2)
        st)
    (n2p, p2m)

/-- The per-block loop of `moduleModulePartition` (lines 1376-1433): map
each chopped destination block back through the alignment arrays, and run
the source-side reconciliation under the second `try/except`; the handler
restores the dictionaries COPIED JUST BEFORE THE FAILING CALL (not the
pre-edge ones) and runs the dead pruning loop.  (`dict.copy()` is shallow:
in CPython an in-place path-set mutation performed by the failing call
before it raises would additionally survive this restoration; the embedding
restores by value, which coincides with the source whenever the failing
call raised before mutating any set — as in the run proved below.) -/
def mmpBlockLoop (fuel : Nat) (nodeA nodeB : NodeT)
    (pathAtoB partBtoA : Ivl) (directionAtoB directionBtoA : Dir)
    (arrayAtoB arrayBtoA : Mask) :
    List (Block × MGraph) → NodesDict → PathsDict →
    Except String (NodesDict × PathsDict)
  | [], n2p, p2m => .ok (n2p, p2m)
  | (block, correspondingModule) :: rest, n2p, p2m =>
      let blockPath := block.2.1
      let leftOffset := blockPath.1 - partBtoA.1
      let rightOffset := blockPath.2 - partBtoA.1
      let computed : Except String (Option (Ivl × Mask × Mask)) :=
        if directionAtoB = directionBtoA then
          match choppedIndex arrayBtoA leftOffset with
          | .error e => .error e
          | .ok lB =>
          match choppedIndex arrayBtoA rightOffset with
          | .error e => .error e
          | .ok rB =>
              .ok (some ((pathAtoB.1 + (countOnes (pyTake arrayAtoB lB) : Int),
                pathAtoB.1 + (countOnes (pyTake arrayAtoB rB) : Int)),
                pySlice arrayAtoB lB rB, pySlice arrayBtoA lB rB))
        else
          let raw : Except String (Ivl × Mask × Mask) :=
            if directionBtoA = Dir.plus then
              match choppedIndex arrayBtoA leftOffset with
              | .error e => .error e
              | .ok lB =>
              match choppedIndex arrayBtoA rightOffset with
              | .error e => .error e
              | .ok rB =>
                  .ok ((pathAtoB.2 - (countOnes (pyTake arrayAtoB rB) : Int),
                    pathAtoB.2 - (countOnes (pyTake arrayAtoB lB) : Int)),
                    pySlice arrayAtoB lB rB, pySlice arrayBtoA lB rB)
            else
              match choppedIndex arrayBtoA (partBtoA.2 - blockPath.2) with
              | .error e => .error e
              | .ok lB =>
              match choppedIndex arrayBtoA (partBtoA.2 - blockPath.1) with
              | .error e => .error e
              | .ok rB =>
                  .ok ((pathAtoB.1 + (countOnes (pyTake arrayAtoB lB) : Int),
                    pathAtoB.1 + (countOnes (pyTake arrayAtoB rB) : Int)),
                    pySlice arrayAtoB lB rB, pySlice arrayBtoA lB rB)
          match raw with
          | .error e => .error e
          | .ok (cp, sA, sB) =>
              if cp.1 ≥ cp.2 then .ok none else .ok (some (cp, sA, sB))
      match computed with
      | .error e => .error e
      | .ok none =>
          mmpBlockLoop fuel nodeA nodeB pathAtoB partBtoA directionAtoB
            directionBtoA arrayAtoB arrayBtoA rest n2p p2m
      | .ok (some (correspondingPath, subArrayAtoB, subArrayBtoA)) =>
          if correspondingModule ∉ p2m.values then
            mmpBlockLoop fuel nodeA nodeB pathAtoB partBtoA directionAtoB
              directionBtoA arrayAtoB arrayBtoA rest n2p p2m
          else
            let overlappedPairs := bedtoolCall nodeA n2p correspondingPath
            match overlappedPairs.mapM (fun pr =>
                exceptOfOption (Dict.get? p2m pr) "KeyError") with
            | .error e => .error e
            | .ok connectedModules =>
                match recursiveModuleVSModuleChecking fuel connectedModules
                    nodeA nodeB correspondingPath blockPath directionAtoB
                    directionBtoA correspondingModule n2p p2m subArrayAtoB
                    subArrayBtoA with
                | .ok (n2p2, p2m2) =>
                    mmpBlockLoop fuel nodeA nodeB pathAtoB partBtoA
                      directionAtoB directionBtoA arrayAtoB arrayBtoA rest
                      n2p2 p2m2
                | .error _ =>
                    let st := pruneOverlapping n2p p2m
                    mmpBlockLoop fuel nodeA nodeB pathAtoB partBtoA
                      directionAtoB directionBtoA arrayAtoB arrayBtoA rest
                      st.1 st.2

/-- `moduleModulePartition(...)`: chop the destination-side modules along
`partBtoA`, commit the chopped modules, then reconcile each chopped block on
the source side.  The two dictionaries are shallow-copied
(`dict.copy()`) before each guarded call; `chopModulesAndUpdateGraph` never
mutates them, so handler 1's restoration genuinely recovers the pre-edge
bindings before pruning multi-SCC modules — handler 2's copies, by
contrast, are taken mid-edge, inside `mmpBlockLoop`. -/
def moduleModulePartition (fuel : Nat) (nodeA nodeB : NodeT)
    (pathAtoB partBtoA : Ivl) (directionAtoB directionBtoA : Dir)
    (n2p : NodesDict) (p2m : PathsDict) (arrayAtoB arrayBtoA : Mask) :
    Except String (NodesDict × PathsDict) :=
  let overlappedPairs := bedtoolCall nodeB n2p partBtoA
  match overlappedPairs.mapM (fun pr =>
      exceptOfOption (Dict.get? p2m pr) "KeyError") with
  | .error e => .error e
  | .ok bConnectedModules =>
      match chopModulesAndUpdateGraph fuel bConnectedModules nodeB partBtoA
          directionBtoA [] [] n2p p2m with
      | .error _ => .ok (pruneMultiSCC n2p p2m)
      | .ok (partitionBlockDic, moduleUpdateDic) =>
          let committed := moduleUpdateDic.foldl
            (fun st kv =>
              let st1 := removeOldModule kv.1 st.1 st.2
              kv.2.foldl (fun st2 m => updateNewModule m st2.1 st2.2 20) st1)
            (n2p, p2m)
          mmpBlockLoop fuel nodeA nodeB pathAtoB partBtoA directionAtoB
            directionBtoA arrayAtoB arrayBtoA partitionBlockDic
            committed.1 committed.2

/-- All-ones alignment masks for the C5 trace. -/
def c5ones (n : Nat) : Mask := List.replicate n true

/-- C5 trace: the source-side sequence node. -/
def c5A : NodeT := ("a", 0, 1000)

/-- C5 trace: the destination-side sequence node. -/
def c5B : NodeT := ("b", 0, 1000)

/-- C5 trace: partner node of the destination module. -/
def c5C : NodeT := ("c", 0, 1000)

/-- C5 trace: partner node of the source module. -/
def c5D : NodeT := ("d", 0, 1000)

/-- The live destination module: a strongly connected two-block module over
`b:(0,200)` and `c:(0,200)`. -/
def c5MB : MGraph :=
  { nodes := [(c5B, (0, 200), Dir.plus), (c5C, (0, 200), Dir.plus)],
    edges := [((c5B, (0, 200), Dir.plus), (c5C, (0, 200), Dir.plus), 0,
                c5ones 200),
              ((c5C, (0, 200), Dir.plus), (c5B, (0, 200), Dir.plus), 0,
                c5ones 200)] }

/-- The live source module: two blocks, no edges (so any further
`partitionToTwoModules` on it raises `Everything is missed`). -/
def c5Msrc : MGraph :=
  { nodes := [(c5A, (0, 500), Dir.plus), (c5D, (0, 500), Dir.plus)],
    edges := [] }

/-- Pre-edge `nodeToPathDic` of the C5 trace. -/
def c5n2p : NodesDict :=
  [(c5B, [((0 : Int), (200 : Int))]), (c5C, [((0 : Int), (200 : Int))]),
   (c5A, [((0 : Int), (500 : Int))]), (c5D, [((0 : Int), (500 : Int))])]

/-- Pre-edge `nodePathToModuleDic` of the C5 trace. -/
def c5p2m : PathsDict :=
  [((c5B, ((0 : Int), (200 : Int))), c5MB),
   ((c5C, ((0 : Int), (200 : Int))), c5MB),
   ((c5A, ((0 : Int), (500 : Int))), c5Msrc),
   ((c5D, ((0 : Int), (500 : Int))), c5Msrc)]

/-- First fragment module of `c5MB` chopped at offset 100. -/
def c5M1 : MGraph :=
  { nodes := [(c5B, (0, 100), Dir.plus), (c5C, (0, 100), Dir.plus)],
    edges := [((c5B, (0, 100), Dir.plus), (c5C, (0, 100), Dir.plus), 0,
                c5ones 100),
              ((c5C, (0, 100), Dir.plus), (c5B, (0, 100), Dir.plus), 0,
                c5ones 100)] }

/-- Second fragment module of `c5MB` chopped at offset 100. -/
def c5M2 : MGraph :=
  { nodes := [(c5B, (100, 200), Dir.plus), (c5C, (100, 200), Dir.plus)],
    edges := [((c5B, (100, 200), Dir.plus), (c5C, (100, 200), Dir.plus), 0,
                c5ones 100),
              ((c5C, (100, 200), Dir.plus), (c5B, (100, 200), Dir.plus), 0,
                c5ones 100)] }

/-- The MID-EDGE `nodeToPathDic`: the state after the `moduleUpdateDic`
commit loop replaced `c5MB` by its fragments. -/
def c5midN2p : NodesDict :=
  [(c5B, [((0 : Int), (100 : Int)), ((100 : Int), (200 : Int))]),
   (c5C, [((0 : Int), (100 : Int)), ((100 : Int), (200 : Int))]),
   (c5A, [((0 : Int), (500 : Int))]), (c5D, [((0 : Int), (500 : Int))])]

/-- The MID-EDGE `nodePathToModuleDic` after the commit loop. -/
def c5midP2m : PathsDict :=
  [((c5A, ((0 : Int), (500 : Int))), c5Msrc),
   ((c5D, ((0 : Int), (500 : Int))), c5Msrc),
   ((c5B, ((0 : Int), (100 : Int))), c5M1),
   ((c5C, ((0 : Int), (100 : Int))), c5M1),
   ((c5B, ((100 : Int), (200 : Int))), c5M2),
   ((c5C, ((100 : Int), (200 : Int))), c5M2)]

/-- An edgeless two-block module of node `b` for the C5 witness. -/
def c5W : MGraph :=
  { nodes := [(c5B, (0, 500), Dir.plus), (c5D, (0, 500), Dir.plus)],
    edges := [] }

/-! # Theorems -/

theorem Dir.flip_injective : Function.Injective Dir.flip := by
  intro a b h
  cases a <;> cases b <;> simp [Dir.flip] at h ⊢

/-! Facts about `onesIdx` / `nthItem`. -/

@[simp] theorem onesIdx_nil (i : Nat) : onesIdx [] i = [] := rfl

@[simp] theorem onesIdx_cons_true (r : List Bool) (i : Nat) :
    onesIdx (true :: r) i = i :: onesIdx r (i + 1) := rfl

@[simp] theorem onesIdx_cons_false (r : List Bool) (i : Nat) :
    onesIdx (false :: r) i = onesIdx r (i + 1) := rfl

theorem onesIdx_length (l : List Bool) (i : Nat) :
    (onesIdx l i).length = l.count true := by
  induction l generalizing i with
  | nil => simp
  | cons b r ih =>
    cases b <;> simp [List.count_cons, ih]

theorem onesIdx_shift (l : List Bool) (i : Nat) (n : Nat) :
    (onesIdx l i).get? n = ((onesIdx l 0).get? n).map (· + i) := by
  induction l generalizing i n with
  | nil => simp
  | cons b r ih =>
    cases b with
    | false =>
      simp only [onesIdx_cons_false]
      rw [ih (i + 1) n, ih 1 n]
      cases (onesIdx r 0).get? n <;> simp [Nat.add_comm, Nat.add_assoc, Nat.add_left_comm]
    | true =>
      simp only [onesIdx_cons_true]
      cases n with
      | zero => simp
      | succ m =>
        simp only [List.get?_cons_succ]
        rw [ih (i + 1) m, ih 1 m]
        cases (onesIdx r 0).get? m <;> simp [Nat.add_comm, Nat.add_assoc, Nat.add_left_comm]

/-- The `k`-th one (0-based) sits at an index `j` such that the prefix of
length `j + 1` holds exactly `k + 1` ones and every prefix of length `≤ j`
holds at most `k` ones. -/
theorem onesIdx_get_spec (l : List Bool) (k : Nat) (hk : k < l.count true) :
    ∃ j, (onesIdx l 0).get? k = some j ∧
      (l.take (j + 1)).count true = k + 1 ∧
      ∀ i, i ≤ j → (l.take i).count true ≤ k := by
  induction l generalizing k with
  | nil => simp at hk
  | cons b r ih =>
    cases b with
    | true =>
      have hcons : onesIdx (true :: r) 0 = 0 :: onesIdx r 1 := rfl
      cases k with
      | zero =>
        refine ⟨0, by simp [hcons], by simp, ?_⟩
        intro i hi
        interval_cases i
        simp
      | succ m =>
        have hm : m < r.count true := by
          simp [List.count_cons] at hk
          omega
        obtain ⟨j, hj, hcount, hmin⟩ := ih m hm
        refine ⟨j + 1, ?_, ?_, ?_⟩
        · rw [hcons]
          simp only [List.get?_cons_succ]
          rw [onesIdx_shift r 1 m, hj]
          simp
        · simp [List.count_cons, hcount]
        · intro i hi
          cases i with
          | zero => simp
          | succ i' =>
            have : i' ≤ j := by omega
            have := hmin i' this
            simp [List.count_cons]
            omega
    | false =>
      have hcons : onesIdx (false :: r) 0 = onesIdx r 1 := rfl
      have hk' : k < r.count true := by
        simpa [List.count_cons] using hk
      obtain ⟨j, hj, hcount, hmin⟩ := ih k hk'
      refine ⟨j + 1, ?_, ?_, ?_⟩
      · rw [hcons, onesIdx_shift r 1 k, hj]; simp
      · simpa [List.count_cons] using hcount
      · intro i hi
        cases i with
        | zero => simp
        | succ i' =>
          have : i' ≤ j := by omega
          have := hmin i' this
          simpa [List.count_cons] using this

theorem nthItem_overflow (l : List Bool) (n : Nat) (h : l.count true ≤ n) :
    nthItem n l = -1 := by
  unfold nthItem
  have : (onesIdx l 0).get? n = none := by
    apply List.get?_eq_none.2
    rw [onesIdx_length]
    exact h
  rw [this]

/-- **C2.** For `1 ≤ k ≤ popcount(mask)`, `choppedIndex(mask, k)` is the
smallest prefix length `j` of `mask` containing exactly `k` ones (the position
immediately after the `k`-th `'1'`), and `choppedIndex(mask, 0)` equals
`choppedIndex(mask, 1)`. -/
theorem choppedIndex_spec (mask : Mask) (k : Nat) (h1 : 1 ≤ k)
    (h2 : k ≤ countOnes mask) :
    (∃ j : Nat, choppedIndex mask (k : Int) = .ok (j : Int) ∧
      (mask.take j).count true = k ∧
      ∀ i : Nat, i < j → (mask.take i).count true < k) ∧
    choppedIndex mask 0 = choppedIndex mask 1 := by
  constructor
  · have hk : k - 1 < mask.count true := by
      unfold countOnes at h2
      omega
    obtain ⟨j, hj, hcount, hmin⟩ := onesIdx_get_spec mask (k - 1) hk
    refine ⟨j + 1, ?_, ?_, ?_⟩
    · unfold choppedIndex nthItem
      have hne : ¬ ((k : Int) = 0) := by
        intro hc
        omega
      have hnneg : ¬ ((k : Int) < 0) := by omega
      simp only [hne, if_false, hnneg]
      have htn : ((k : Int) - 1).toNat = k - 1 := by omega
      rw [htn, hj]
      simp
    · have : k - 1 + 1 = k := by omega
      rw [hcount, this]
    · intro i hi
      have : i ≤ j := by omega
      have := hmin i this
      omega
  · unfold choppedIndex
    norm_num

/-- Closed witness for `choppedIndex_spec` at `mask = 1011`, `k = 2`. -/
theorem choppedIndex_spec_witness :
    (∃ j : Nat,
      choppedIndex [true, false, true, true] ((2 : Nat) : Int) = .ok (j : Int) ∧
      ([true, false, true, true].take j).count true = 2 ∧
      ∀ i : Nat, i < j → ([true, false, true, true].take i).count true < 2) ∧
    choppedIndex [true, false, true, true] 0 =
      choppedIndex [true, false, true, true] 1 :=
  choppedIndex_spec [true, false, true, true] 2 (by decide) (by decide)

/-- **C3, counterexample.** The claim says `choppedIndex` raises when `k`
exceeds the popcount; in fact `nth_item`'s `next(..., -1)` default makes it
return `-1 + 1 = 0`: here `popcount = 2 < 3` yet the call returns `0`. -/
theorem choppedIndex_overflow_counterexample :
    countOnes [true, false, true] < 3 ∧
    choppedIndex [true, false, true] 3 = .ok 0 := by
  constructor
  · decide
  · rfl

/-- **C3, amended.** When `k` strictly exceeds the popcount of the mask,
`choppedIndex(mask, k)` does not raise: it returns `0` (the `-1` "not found"
sentinel of `nth_item`, plus one). Moreover the `ValueError` is raised
exactly for negative arguments: `choppedIndex mask j` is the
`offset is negative` error if and only if `j < 0`. -/
theorem choppedIndex_overflow (mask : Mask) (k : Int)
    (h : (countOnes mask : Int) < k) :
    choppedIndex mask k = .ok 0 ∧
    ∀ j : Int, (choppedIndex mask j = .error "offset is negative" ↔ j < 0) := by
  constructor
  · unfold choppedIndex
    have hne : ¬ (k = 0) := by omega
    have hnneg : ¬ (k < 0) := by omega
    simp only [hne, if_false, hnneg]
    rw [nthItem_overflow]
    · norm_num
    · unfold countOnes at h
      omega
  · intro j
    unfold choppedIndex
    by_cases hj0 : j = 0
    · subst hj0
      norm_num
      exact fun hc => Except.noConfusion hc
    · simp only [hj0, if_false]
      by_cases hjn : j < 0
      · simp [hjn]
      · simp [hjn]

/-- Closed witness for `choppedIndex_overflow` at `mask = 1`: `k = 5`
overflows to `.ok 0`, `j = -1` raises the negative-offset error, and
`j = 2` (also past the popcount) does not raise it. -/
theorem choppedIndex_overflow_witness :
    choppedIndex [true] 5 = .ok 0 ∧
    choppedIndex [true] (-1) = .error "offset is negative" ∧
    choppedIndex [true] 2 ≠ .error "offset is negative" := by
  have h := choppedIndex_overflow [true] 5 (by decide)
  exact ⟨h.1, (h.2 (-1)).mpr (by decide),
    fun hc => absurd ((h.2 2).mp hc) (by decide)⟩

theorem flipBlock_flipBlock (b : Block) : flipBlock (flipBlock b) = b := by
  obtain ⟨n, p, d⟩ := b
  simp [flipBlock]

theorem flipBlock_injective : Function.Injective flipBlock := by
  intro a b h
  have := congrArg flipBlock h
  rwa [flipBlock_flipBlock, flipBlock_flipBlock] at this

/-- **C9, counterexample.** The code's cut uses `qEnd - qStart`, not the
alignment length: this row is kept by `blastToDf` at the default threshold
`0.4` although its `bitScore` fails the claim's `align_len` formula. -/
theorem blastToDf_alignlen_counterexample :
    c9Row ∈ blastToDf [c9Row] (2 / 5) ∧ ¬ specBitscoreKeep c9Row (2 / 5) := by
  constructor
  · unfold blastToDf
    refine List.mem_filter.2 ⟨List.mem_filter.2 ⟨List.mem_singleton.2 rfl, ?_⟩, ?_⟩
    · decide
    · have h167 : scoreThreshold c9Row = 167 := by decide
      simp only [decide_eq_true_eq, h167]
      show (2 / 5 : ℚ) * (167 : Int) ≤ (c9Row.bitScore : ℚ)
      unfold c9Row
      norm_num
  · unfold specBitscoreKeep c9Row
    norm_num

/-- **C9, amended.** `blastToDf` keeps exactly the rows with distinct query
and subject accessions whose `bitScore` is at least
`threshold * int(1.6446838 * (qEnd - qStart) + 3)`, the query span standing in
for the alignment length and the base value truncated to an integer. -/
theorem blastToDf_keeps (df : List Row) (threshold : ℚ) (r : Row) :
    r ∈ blastToDf df threshold ↔
      r ∈ df ∧ r.subjectAccVer ≠ r.queryAccVer ∧
        threshold * (scoreThreshold r : ℚ) ≤ (r.bitScore : ℚ) := by
  simp only [blastToDf, List.mem_filter, decide_eq_true_eq]
  tauto

/-- **C4, code bug.** The registration loop uses `break` at the first block
shorter than `trimLength`, so the length-100 block *after* the short block is
never registered in either index: registration is not position-independent
and does not add every block of length `≥ 20`. -/
theorem updateNewModule_break_bug :
    (20 : Int) ≤ 200 - 100 ∧
    (("s", 0, 1000), (100, 200), Dir.plus) ∈ c4Module.nodes ∧
    updateNewModule c4Module [] [] 20 = ([], []) := by
  refine ⟨by norm_num, by decide, ?_⟩
  decide

/-! ## Counting lemmas towards `adjEdges` -/

theorem mem_dedupAux {α : Type} [DecidableEq α] (a : α) (l : List α) :
    ∀ seen : List α, a ∈ dedupAux l seen ↔ a ∈ l ∧ a ∉ seen := by
  induction l with
  | nil => intro seen; simp [dedupAux]
  | cons x r ih =>
    intro seen
    rw [dedupAux]
    by_cases hx : x ∈ seen
    · rw [if_pos hx, ih]
      constructor
      · rintro ⟨h, hs⟩
        exact ⟨List.mem_cons.2 (Or.inr h), hs⟩
      · rintro ⟨h, hs⟩
        rcases List.mem_cons.1 h with rfl | h2
        · exact absurd hx hs
        · exact ⟨h2, hs⟩
    · rw [if_neg hx]
      constructor
      · intro h
        rcases List.mem_cons.1 h with rfl | h2
        · exact ⟨List.mem_cons.2 (Or.inl rfl), hx⟩
        · obtain ⟨h3, h4⟩ := (ih (x :: seen)).1 h2
          exact ⟨List.mem_cons.2 (Or.inr h3),
            fun hc => h4 (List.mem_cons.2 (Or.inr hc))⟩
      · rintro ⟨h, hs⟩
        rcases List.mem_cons.1 h with rfl | h2
        · exact List.mem_cons.2 (Or.inl rfl)
        · by_cases hax : a = x
          · exact List.mem_cons.2 (Or.inl hax)
          · refine List.mem_cons.2 (Or.inr ((ih (x :: seen)).2 ⟨h2, ?_⟩))
            intro hc
            rcases List.mem_cons.1 hc with h5 | h6
            · exact hax h5
            · exact hs h6

theorem nodup_dedupAux {α : Type} [DecidableEq α] (l : List α) :
    ∀ seen : List α, (dedupAux l seen).Nodup := by
  induction l with
  | nil => intro seen; simp [dedupAux]
  | cons x r ih =>
    intro seen
    rw [dedupAux]
    by_cases hx : x ∈ seen
    · rw [if_pos hx]; exact ih seen
    · rw [if_neg hx]
      refine List.nodup_cons.2 ⟨?_, ih (x :: seen)⟩
      intro hmem
      exact ((mem_dedupAux x r (x :: seen)).1 hmem).2
        (List.mem_cons.2 (Or.inl rfl))

theorem mem_dedupKeepFirst {α : Type} [DecidableEq α] (l : List α) (a : α) :
    a ∈ dedupKeepFirst l ↔ a ∈ l := by
  rw [dedupKeepFirst, mem_dedupAux]
  simp

theorem nodup_dedupKeepFirst {α : Type} [DecidableEq α] (l : List α) :
    (dedupKeepFirst l).Nodup :=
  nodup_dedupAux l []

/-- Summing, over a duplicate-free list of keys covering all images of `f`,
the number of elements of `l` whose image is each key, yields `l.length`. -/
theorem sum_countP_nodup {α β : Type} [DecidableEq β] (f : α → β) :
    ∀ (keys : List β), keys.Nodup → ∀ (l : List α), (∀ a ∈ l, f a ∈ keys) →
      (keys.map (fun v => l.countP (fun a => f a = v))).sum = l.length := by
  intro keys
  induction keys with
  | nil =>
    intro _ l hl
    cases l with
    | nil => simp
    | cons a r => exact absurd (hl a (List.mem_cons_self a r)) (by simp)
  | cons v0 rest ih =>
    intro hnd l hl
    have hnd' : rest.Nodup := (List.nodup_cons.1 hnd).2
    have hv0 : v0 ∉ rest := (List.nodup_cons.1 hnd).1
    set l' := l.filter (fun a => ¬ f a = v0) with hl'
    have hcongr : ∀ v ∈ rest,
        l.countP (fun a => f a = v) = l'.countP (fun a => f a = v) := by
      intro v hv
      have hvne : v ≠ v0 := fun hc => hv0 (hc ▸ hv)
      rw [hl', List.countP_filter]
      apply List.countP_congr
      intro x _
      simp only [Bool.and_eq_true, decide_eq_true_eq]
      constructor
      · intro hx
        exact ⟨hx, fun hc => hvne (hx.symm.trans hc)⟩
      · intro hx
        exact hx.1
    have hmap : rest.map (fun v => l.countP (fun a => f a = v)) =
        rest.map (fun v => l'.countP (fun a => f a = v)) :=
      List.map_congr_left hcongr
    have hsub : ∀ a ∈ l', f a ∈ rest := by
      intro a ha
      rw [hl', List.mem_filter] at ha
      have := hl a ha.1
      rcases List.mem_cons.1 this with h | h
      · exact absurd h (by simpa using ha.2)
      · exact h
    have hrec := ih hnd' l' hsub
    have hlen : l'.length = l.countP (fun a => ¬ f a = v0) := by
      rw [hl', ← List.countP_eq_length_filter]
    calc (((v0 :: rest)).map (fun v => l.countP (fun a => f a = v))).sum
        = l.countP (fun a => f a = v0) +
            (rest.map (fun v => l.countP (fun a => f a = v))).sum := by
          simp
      _ = l.countP (fun a => f a = v0) + l'.length := by rw [hmap, hrec]
      _ = l.countP (fun a => f a = v0) + l.countP (fun a => ¬ f a = v0) := by
          rw [hlen]
      _ = l.length := by
          rw [List.length_eq_countP_add_countP (fun a => decide (f a = v0)) l]
          congr 1
          apply List.countP_congr
          intro x _
          simp

theorem mem_outEdges (g : MGraph) (u : Block) (x : EdgeT) :
    x ∈ g.outEdges u ↔ x ∈ g.edges ∧ x.1 = u := by
  have hout : g.outEdges u =
      (dedupKeepFirst ((g.edges.filter (fun e => e.1 = u)).map
          (fun e => e.2.1))).flatMap
        (fun v => (g.edges.filter (fun e => e.1 = u)).filter
          (fun e => e.2.1 = v)) := rfl
  rw [hout]
  constructor
  · intro hx
    obtain ⟨v, _, hxin⟩ := List.mem_flatMap.1 hx
    have hx1 := (List.mem_filter.1 hxin).1
    have := List.mem_filter.1 hx1
    exact ⟨this.1, by simpa using this.2⟩
  · rintro ⟨hxe, hxu⟩
    apply List.mem_flatMap.2
    refine ⟨x.2.1, ?_, ?_⟩
    · rw [mem_dedupKeepFirst]
      exact List.mem_map_of_mem _ (List.mem_filter.2 ⟨hxe, by simp [hxu]⟩)
    · exact List.mem_filter.2 ⟨List.mem_filter.2 ⟨hxe, by simp [hxu]⟩, by simp⟩

theorem length_outEdges (g : MGraph) (u : Block) :
    (g.outEdges u).length = (g.edges.filter (fun e => e.1 = u)).length := by
  have hout : g.outEdges u =
      (dedupKeepFirst ((g.edges.filter (fun e => e.1 = u)).map
          (fun e => e.2.1))).flatMap
        (fun v => (g.edges.filter (fun e => e.1 = u)).filter
          (fun e => e.2.1 = v)) := rfl
  rw [hout]
  set es := g.edges.filter (fun e => e.1 = u) with hes
  rw [List.length_flatMap]
  simp only [Function.comp_def]
  have hmap : (dedupKeepFirst (es.map (fun e => e.2.1))).map
        (fun v => (es.filter (fun e => e.2.1 = v)).length) =
      (dedupKeepFirst (es.map (fun e => e.2.1))).map
        (fun v => es.countP (fun e => e.2.1 = v)) := by
    apply List.map_congr_left
    intro v _
    rw [List.countP_eq_length_filter]
  rw [hmap]
  exact sum_countP_nodup (fun e => e.2.1) _ (nodup_dedupKeepFirst _) es
    (fun a ha => (mem_dedupKeepFirst _ _).2 (List.mem_map_of_mem _ ha))

theorem mem_adjEdges (g : MGraph) (h : g.Wf) (x : EdgeT) :
    x ∈ MGraph.adjEdges g ↔ x ∈ g.edges := by
  unfold MGraph.adjEdges
  rw [List.mem_flatMap]
  constructor
  · rintro ⟨u, _, hx⟩
    exact ((mem_outEdges g u x).1 hx).1
  · intro hx
    exact ⟨x.1, (h.2.1 x hx).1, (mem_outEdges g x.1 x).2 ⟨hx, rfl⟩⟩

theorem length_adjEdges (g : MGraph) (h : g.Wf) :
    (MGraph.adjEdges g).length = g.edges.length := by
  unfold MGraph.adjEdges
  rw [List.length_flatMap]
  simp only [Function.comp_def]
  have hmap : g.nodes.map (fun u => (g.outEdges u).length) =
      g.nodes.map (fun u => g.edges.countP (fun e => e.1 = u)) := by
    apply List.map_congr_left
    intro u _
    rw [length_outEdges, List.countP_eq_length_filter]
  rw [hmap]
  exact sum_countP_nodup (fun e => e.1) g.nodes h.1 g.edges
    (fun a ha => (h.2.1 a ha).1)

theorem flipEdge_flipEdge (e : EdgeT) : flipEdge (flipEdge e) = e := by
  obtain ⟨u, v, k, w⟩ := e
  simp [flipEdge, flipBlock_flipBlock]

theorem flipEdge_injective : Function.Injective flipEdge := by
  intro a b h
  have := congrArg flipEdge h
  rwa [flipEdge_flipEdge, flipEdge_flipEdge] at this

theorem keyTriple_flipEdge (e : EdgeT) :
    keyTriple (flipEdge e) = flipTriple (keyTriple e) := rfl

theorem flipTriple_injective : Function.Injective flipTriple := by
  intro a b h
  obtain ⟨a1, a2, a3⟩ := a
  obtain ⟨b1, b2, b3⟩ := b
  simp only [flipTriple, Prod.mk.injEq] at h
  exact Prod.ext (flipBlock_injective h.1)
    (Prod.ext (flipBlock_injective h.2.1) h.2.2)

theorem nodup_map_keyTriple_outEdges (g : MGraph)
    (hnd : (g.edges.map keyTriple).Nodup) (u : Block) :
    ((g.outEdges u).map keyTriple).Nodup := by
  have hout : g.outEdges u =
      (dedupKeepFirst ((g.edges.filter (fun e => e.1 = u)).map
          (fun e => e.2.1))).flatMap
        (fun v => (g.edges.filter (fun e => e.1 = u)).filter
          (fun e => e.2.1 = v)) := rfl
  rw [hout, List.map_flatMap, List.nodup_flatMap]
  constructor
  · intro v _
    have h1 : List.Sublist
        ((g.edges.filter (fun e => e.1 = u)).filter (fun e => e.2.1 = v))
        (g.edges.filter (fun e => e.1 = u)) := List.filter_sublist _
    have h2 : List.Sublist (g.edges.filter (fun e => e.1 = u)) g.edges :=
      List.filter_sublist _
    exact ((h1.trans h2).map keyTriple).nodup hnd
  · have hnbr := nodup_dedupKeepFirst
      ((g.edges.filter (fun e => e.1 = u)).map (fun e => e.2.1))
    refine List.Pairwise.imp ?_ hnbr
    intro v v' hne t ht ht'
    obtain ⟨e, he, rfl⟩ := List.mem_map.1 ht
    obtain ⟨e', he', heq⟩ := List.mem_map.1 ht'
    have hv : e.2.1 = v := by
      have := (List.mem_filter.1 he).2
      simpa using this
    have hv' : e'.2.1 = v' := by
      have := (List.mem_filter.1 he').2
      simpa using this
    have h21 : e.2.1 = e'.2.1 := by
      have := congrArg (fun t => t.2.1) heq
      simpa [keyTriple] using this.symm
    exact hne (hv ▸ h21.symm ▸ hv' ▸ rfl)

theorem nodup_map_keyTriple_adjEdges (g : MGraph) (hW : g.Wf) :
    ((MGraph.adjEdges g).map keyTriple).Nodup := by
  unfold MGraph.adjEdges
  rw [List.map_flatMap, List.nodup_flatMap]
  constructor
  · intro u _
    exact nodup_map_keyTriple_outEdges g hW.2.2 u
  · refine List.Pairwise.imp ?_ hW.1
    intro u u' hne t ht ht'
    obtain ⟨e, he, rfl⟩ := List.mem_map.1 ht
    obtain ⟨e', he', heq⟩ := List.mem_map.1 ht'
    have hu : e.1 = u := ((mem_outEdges g u e).1 he).2
    have hu' : e'.1 = u' := ((mem_outEdges g u' e').1 he').2
    have h1 : e.1 = e'.1 := by
      have := congrArg (fun t => t.1) heq
      simpa [keyTriple] using this.symm
    exact hne (hu ▸ h1.symm ▸ hu' ▸ rfl)

/-! ## `Dict` lookup lemmas -/

theorem Dict.get?_nil {κ ν : Type} [DecidableEq κ] (k : κ) :
    Dict.get? ([] : Dict κ ν) k = none := rfl

theorem Dict.get?_cons {κ ν : Type} [DecidableEq κ] (k0 : κ) (v0 : ν)
    (rest : Dict κ ν) (k : κ) :
    Dict.get? ((k0, v0) :: rest) k =
      if k0 = k then some v0 else Dict.get? rest k := by
  unfold Dict.get?
  rw [List.find?_cons]
  by_cases h : k0 = k <;> simp [h]

theorem Dict.set_nil {κ ν : Type} [DecidableEq κ] (k : κ) (v : ν) :
    Dict.set ([] : Dict κ ν) k v = [(k, v)] := rfl

theorem Dict.set_cons {κ ν : Type} [DecidableEq κ] (k0 : κ) (v0 : ν)
    (rest : Dict κ ν) (k : κ) (v : ν) :
    Dict.set ((k0, v0) :: rest) k v =
      if k0 = k then (k, v) :: rest else (k0, v0) :: Dict.set rest k v := rfl

theorem Dict.get?_set_self {κ ν : Type} [DecidableEq κ] (d : Dict κ ν)
    (k : κ) (v : ν) : Dict.get? (Dict.set d k v) k = some v := by
  induction d with
  | nil => rw [Dict.set_nil, Dict.get?_cons]; simp
  | cons p rest ih =>
    obtain ⟨k0, v0⟩ := p
    rw [Dict.set_cons]
    by_cases hk : k0 = k
    · rw [if_pos hk, Dict.get?_cons]; simp
    · rw [if_neg hk, Dict.get?_cons, if_neg hk]; exact ih

theorem Dict.get?_set_ne {κ ν : Type} [DecidableEq κ] (d : Dict κ ν)
    (k k' : κ) (v : ν) (h : k' ≠ k) :
    Dict.get? (Dict.set d k v) k' = Dict.get? d k' := by
  induction d with
  | nil =>
    rw [Dict.set_nil, Dict.get?_cons, if_neg (Ne.symm h), Dict.get?_nil]
  | cons p rest ih =>
    obtain ⟨k0, v0⟩ := p
    rw [Dict.set_cons]
    by_cases hk : k0 = k
    · subst hk
      rw [if_pos rfl, Dict.get?_cons, if_neg (Ne.symm h), Dict.get?_cons,
        if_neg (Ne.symm h)]
    · rw [if_neg hk, Dict.get?_cons, Dict.get?_cons]
      by_cases hk0 : k0 = k'
      · rw [if_pos hk0, if_pos hk0]
      · rw [if_neg hk0, if_neg hk0]
        exact ih

/-- Folding `Dict.set`s for keys not equal to `b` leaves `b`'s lookup. -/
theorem Dict.get?_foldl_set_not_mem {f : Block → Block} (l : List Block)
    (d : Dict Block Block) (b : Block) (hb : b ∉ l) :
    Dict.get? (l.foldl (fun m node => Dict.set m node (f node)) d) b =
      Dict.get? d b := by
  induction l generalizing d with
  | nil => rfl
  | cons x r ih =>
    have hbx : b ≠ x := fun hc => hb (hc ▸ List.mem_cons_self x r)
    have hbr : b ∉ r := fun hc => hb (List.mem_cons_of_mem x hc)
    simp only [List.foldl_cons]
    rw [ih _ hbr, Dict.get?_set_ne _ _ _ _ hbx]

/-- The `nodeMapping` dict of `signReverse` maps every node to its flip. -/
theorem Dict.get?_foldl_set_mem {f : Block → Block} (l : List Block)
    (d : Dict Block Block) (b : Block) (hb : b ∈ l) :
    Dict.get? (l.foldl (fun m node => Dict.set m node (f node)) d) b =
      some (f b) := by
  induction l generalizing d with
  | nil => simp at hb
  | cons x r ih =>
    simp only [List.foldl_cons]
    by_cases hbr : b ∈ r
    · exact ih _ hbr
    · have hbx : b = x := by
        rcases List.mem_cons.1 hb with h | h
        · exact h
        · exact absurd h hbr
      subst hbx
      rw [Dict.get?_foldl_set_not_mem _ _ _ hbr, Dict.get?_set_self]

/-! ## Graph operation lemmas -/

theorem MGraph.addNode_of_mem (g : MGraph) (b : Block) (h : b ∈ g.nodes) :
    g.addNode b = g := by
  unfold MGraph.addNode
  rw [if_pos h]

theorem find?_keyTriple (es : List EdgeT)
    (hnd : (es.map keyTriple).Nodup) (e : EdgeT) (he : e ∈ es) :
    es.find? (fun x => x.1 = e.1 ∧ x.2.1 = e.2.1 ∧ x.2.2.1 = e.2.2.1) =
      some e := by
  induction es with
  | nil => simp at he
  | cons a r ih =>
    rw [List.find?_cons]
    by_cases hcond : a.1 = e.1 ∧ a.2.1 = e.2.1 ∧ a.2.2.1 = e.2.2.1
    · have hkeq : keyTriple a = keyTriple e := by
        unfold keyTriple
        rw [hcond.1, hcond.2.1, hcond.2.2]
      have hae : e = a := by
        rcases List.mem_cons.1 he with h | h
        · exact h
        · exfalso
          have h1 : keyTriple e ∈ r.map keyTriple := List.mem_map_of_mem _ h
          have h2 : keyTriple a ∉ r.map keyTriple :=
            (List.nodup_cons.1 (by simpa using hnd)).1
          exact h2 (hkeq ▸ h1)
      subst hae
      simp [hcond]
    · have hcf : (decide (a.1 = e.1 ∧ a.2.1 = e.2.1 ∧ a.2.2.1 = e.2.2.1)) =
          false := by simpa using hcond
      rw [hcf]
      have hne : e ≠ a := by
        intro hc
        exact hcond (by rw [hc]; exact ⟨rfl, rfl, rfl⟩)
      have her : e ∈ r := by
        rcases List.mem_cons.1 he with h | h
        · exact absurd h hne
        · exact h
      exact ih (List.nodup_cons.1 (by simpa using hnd)).2 her

theorem MGraph.getW_eq (g : MGraph) (hnd : (g.edges.map keyTriple).Nodup)
    (e : EdgeT) (he : e ∈ g.edges) :
    g.getW e.1 e.2.1 e.2.2.1 = some e.2.2.2 := by
  unfold MGraph.getW
  rw [find?_keyTriple g.edges hnd e he]
  rfl

theorem mem_keysBetween (g : MGraph) (u v : Block) (k : Nat) :
    k ∈ g.keysBetween u v ↔ (u, v, k) ∈ g.edges.map keyTriple := by
  unfold MGraph.keysBetween keyTriple
  simp only [List.mem_map, List.mem_filter, decide_eq_true_eq, Bool.and_eq_true]
  constructor
  · rintro ⟨e, ⟨he, h1, h2⟩, h3⟩
    exact ⟨e, he, by rw [h1, h2, h3]⟩
  · rintro ⟨e, he, heq⟩
    have h1 : e.1 = u := congrArg (fun t => t.1) heq
    have h2 : e.2.1 = v := congrArg (fun t => t.2.1) heq
    have h3 : e.2.2.1 = k := congrArg (fun t => t.2.2) heq
    exact ⟨e, ⟨he, h1, h2⟩, h3⟩

theorem MGraph.addEdgeKeyed_append (g : MGraph) (u v : Block) (k : Nat)
    (w : Mask) (hu : u ∈ g.nodes) (hv : v ∈ g.nodes)
    (hk : (u, v, k) ∉ g.edges.map keyTriple) :
    g.addEdgeKeyed u v k w = ⟨g.nodes, g.edges ++ [(u, v, k, w)]⟩ := by
  unfold MGraph.addEdgeKeyed
  rw [MGraph.addNode_of_mem _ _ hu, MGraph.addNode_of_mem _ _ hv]
  rw [if_neg (fun hc => hk ((mem_keysBetween g u v k).1 hc))]

theorem MGraph.addNodesFrom_disjoint :
    ∀ (l : List Block) (g : MGraph), (∀ b ∈ l, b ∉ g.nodes) → l.Nodup →
      g.addNodesFrom l = ⟨g.nodes ++ l, g.edges⟩ := by
  intro l
  induction l with
  | nil =>
    intro g _ _
    show g = ⟨g.nodes ++ [], g.edges⟩
    rw [List.append_nil]
  | cons x r ih =>
    intro g hdis hnd
    show (g.addNode x).addNodesFrom r = _
    have hx : x ∉ g.nodes := hdis x (List.mem_cons_self x r)
    have haddx : g.addNode x = ⟨g.nodes ++ [x], g.edges⟩ := by
      unfold MGraph.addNode
      rw [if_neg hx]
    rw [haddx]
    rw [ih ⟨g.nodes ++ [x], g.edges⟩ ?_ (List.nodup_cons.1 hnd).2]
    · show (⟨(g.nodes ++ [x]) ++ r, g.edges⟩ : MGraph) = _
      rw [List.append_assoc, List.singleton_append]
    · intro b hb
      rw [List.mem_append, List.mem_singleton]
      push_neg
      exact ⟨hdis b (List.mem_cons_of_mem x hb),
        fun hc => (List.nodup_cons.1 hnd).1 (hc ▸ hb)⟩

/-! ## The `signReverse` fold -/

theorem signReverse_fold (M : MGraph) (hW : M.Wf) :
    ∀ (L : List EdgeT) (g : MGraph),
      g.nodes = M.nodes.map flipBlock →
      (∀ e ∈ L, e ∈ M.edges) →
      ((g.edges ++ L.map flipEdge).map keyTriple).Nodup →
      List.foldlM
        (signReverseStep M
          (M.nodes.foldl (fun m node => Dict.set m node (flipBlock node)) []))
        g (L.map keyTriple) =
        .ok ⟨g.nodes, g.edges ++ L.map flipEdge⟩ := by
  intro L
  induction L with
  | nil =>
    intro g _ _ _
    simp only [List.map_nil, List.append_nil]
    rfl
  | cons e rest ih =>
    intro g hnodes hL hnd
    rw [List.map_cons, List.foldlM_cons]
    have heM : e ∈ M.edges := hL e (List.mem_cons_self e rest)
    have hms : Dict.get?
        (M.nodes.foldl (fun m node => Dict.set m node (flipBlock node)) [])
        e.1 = some (flipBlock e.1) :=
      Dict.get?_foldl_set_mem _ _ _ ((hW.2.1 e heM).1)
    have hmd : Dict.get?
        (M.nodes.foldl (fun m node => Dict.set m node (flipBlock node)) [])
        e.2.1 = some (flipBlock e.2.1) :=
      Dict.get?_foldl_set_mem _ _ _ ((hW.2.1 e heM).2)
    have hw : M.getW e.1 e.2.1 e.2.2.1 = some e.2.2.2 :=
      MGraph.getW_eq M hW.2.2 e heM
    have hstep : signReverseStep M
        (M.nodes.foldl (fun m node => Dict.set m node (flipBlock node)) [])
        g (keyTriple e) =
        .ok (g.addEdgeKeyed (flipBlock e.1) (flipBlock e.2.1) e.2.2.1
          e.2.2.2.reverse) := by
      show signReverseStep M
        (M.nodes.foldl (fun m node => Dict.set m node (flipBlock node)) [])
        g (e.1, e.2.1, e.2.2.1) = _
      unfold signReverseStep
      dsimp only
      rw [hms, hmd, hw]
    rw [hstep]
    have hfresh : (flipBlock e.1, flipBlock e.2.1, e.2.2.1) ∉
        g.edges.map keyTriple := by
      intro hc
      have hsplit : (g.edges ++ (e :: rest).map flipEdge).map keyTriple =
          g.edges.map keyTriple ++
            (keyTriple (flipEdge e) :: (rest.map flipEdge).map keyTriple) := by
        simp
      rw [hsplit] at hnd
      have hdisj := List.disjoint_of_nodup_append hnd
      exact hdisj hc (List.mem_cons_self _ _)
    have hadd : g.addEdgeKeyed (flipBlock e.1) (flipBlock e.2.1) e.2.2.1
        e.2.2.2.reverse = ⟨g.nodes, g.edges ++ [flipEdge e]⟩ := by
      apply MGraph.addEdgeKeyed_append
      · rw [hnodes]
        exact List.mem_map_of_mem _ ((hW.2.1 e heM).1)
      · rw [hnodes]
        exact List.mem_map_of_mem _ ((hW.2.1 e heM).2)
      · exact hfresh
    rw [hadd]
    have hnd' : (((g.edges ++ [flipEdge e]) ++ rest.map flipEdge).map
        keyTriple).Nodup := by
      rw [List.append_assoc, List.singleton_append, ← List.map_cons flipEdge]
      exact hnd
    have hres := ih ⟨g.nodes, g.edges ++ [flipEdge e]⟩ hnodes
      (fun x hx => hL x (List.mem_cons_of_mem e hx)) hnd'
    show List.foldlM _ (⟨g.nodes, g.edges ++ [flipEdge e]⟩ : MGraph)
      (rest.map keyTriple) = _
    rw [hres]
    simp [List.append_assoc]

theorem nodup_map_keyTriple_flip (M : MGraph) (hW : M.Wf) :
    (((MGraph.adjEdges M).map flipEdge).map keyTriple).Nodup := by
  have h1 : ((MGraph.adjEdges M).map flipEdge).map keyTriple =
      ((MGraph.adjEdges M).map keyTriple).map flipTriple := by
    rw [List.map_map, List.map_map]
    apply List.map_congr_left
    intro e _
    exact keyTriple_flipEdge e
  rw [h1]
  exact (nodup_map_keyTriple_adjEdges M hW).map flipTriple_injective

theorem signReverse_ok (M : MGraph) (hW : M.Wf) :
    signReverse M =
      Except.ok ⟨M.nodes.map flipBlock, (MGraph.adjEdges M).map flipEdge⟩ := by
  unfold signReverse
  have hg0 : MGraph.addNodesFrom MGraph.empty (M.nodes.map flipBlock) =
      ⟨M.nodes.map flipBlock, []⟩ := by
    rw [MGraph.addNodesFrom_disjoint _ _ (fun b _ hc => by simp [MGraph.empty] at hc)
      (hW.1.map flipBlock_injective)]
    rfl
  have hEK : MGraph.edgesKeyed M = (MGraph.adjEdges M).map keyTriple := by
    unfold MGraph.edgesKeyed MGraph.adjEdges
    rw [List.map_flatMap]
    rfl
  show List.foldlM
      (signReverseStep M
        (M.nodes.foldl (fun m node => Dict.set m node (flipBlock node)) []))
      (MGraph.empty.addNodesFrom (M.nodes.map flipBlock))
      (MGraph.edgesKeyed M) = _
  rw [hg0, hEK]
  have hfold := signReverse_fold M hW (MGraph.adjEdges M)
    ⟨M.nodes.map flipBlock, []⟩ rfl
    (fun e he => (mem_adjEdges M hW e).1 he)
    (by
      show ((([] : List EdgeT) ++ (MGraph.adjEdges M).map flipEdge).map
        keyTriple).Nodup
      rw [List.nil_append]
      exact nodup_map_keyTriple_flip M hW)
  rw [hfold]
  rw [show ((⟨M.nodes.map flipBlock, []⟩ : MGraph)).edges = [] from rfl]
  rw [List.nil_append]

theorem Wf_signReverse (M : MGraph) (hW : M.Wf) :
    MGraph.Wf ⟨M.nodes.map flipBlock, (MGraph.adjEdges M).map flipEdge⟩ := by
  refine ⟨hW.1.map flipBlock_injective, ?_, nodup_map_keyTriple_flip M hW⟩
  intro e' he'
  obtain ⟨e, he, rfl⟩ := List.mem_map.1 he'
  have heM : e ∈ M.edges := (mem_adjEdges M hW e).1 he
  exact ⟨List.mem_map_of_mem _ ((hW.2.1 e heM).1),
    List.mem_map_of_mem _ ((hW.2.1 e heM).2)⟩

/-- **C10.** `signReverse` keeps every block-vertex's node and interval but
flips its orientation and reverses every edge bitmask, preserving node and
edge counts; applying it twice returns a module with exactly the
block-vertices and edge entries of the original. -/
theorem signReverse_involution (M : MGraph) (h : MGraph.Wf M) :
    ∃ M1 M2, signReverse M = Except.ok M1 ∧ signReverse M1 = Except.ok M2 ∧
      M1.nodes = M.nodes.map flipBlock ∧
      M1.nodes.length = M.nodes.length ∧
      M1.edges.length = M.edges.length ∧
      (∀ u v : Block, ∀ k : Nat, ∀ w : Mask,
        (u, v, k, w) ∈ M.edges ↔
          (flipBlock u, flipBlock v, k, w.reverse) ∈ M1.edges) ∧
      M2.nodes = M.nodes ∧
      (∀ e : EdgeT, e ∈ M2.edges ↔ e ∈ M.edges) ∧
      M2.edges.length = M.edges.length := by
  set M1 : MGraph :=
    ⟨M.nodes.map flipBlock, (MGraph.adjEdges M).map flipEdge⟩ with hM1
  have hW1 : M1.Wf := Wf_signReverse M h
  set M2 : MGraph :=
    ⟨M1.nodes.map flipBlock, (MGraph.adjEdges M1).map flipEdge⟩ with hM2
  refine ⟨M1, M2, signReverse_ok M h, signReverse_ok M1 hW1, rfl, ?_, ?_, ?_,
    ?_, ?_, ?_⟩
  · rw [hM1]
    exact List.length_map _ _
  · rw [hM1]
    show ((MGraph.adjEdges M).map flipEdge).length = M.edges.length
    rw [List.length_map, length_adjEdges M h]
  · intro u v k w
    constructor
    · intro hmem
      have h1 : (u, v, k, w) ∈ MGraph.adjEdges M := (mem_adjEdges M h _).2 hmem
      exact List.mem_map_of_mem flipEdge h1
    · intro hmem
      obtain ⟨e, he, heq⟩ := List.mem_map.1 hmem
      have : e = (u, v, k, w) := by
        apply flipEdge_injective
        exact heq
      subst this
      exact (mem_adjEdges M h _).1 he
  · rw [hM2, hM1]
    show (M.nodes.map flipBlock).map flipBlock = M.nodes
    rw [List.map_map]
    have : M.nodes.map (flipBlock ∘ flipBlock) = M.nodes.map id :=
      List.map_congr_left (fun b _ => flipBlock_flipBlock b)
    rw [this, List.map_id]
  · intro e
    show e ∈ (MGraph.adjEdges M1).map flipEdge ↔ e ∈ M.edges
    constructor
    · intro hmem
      obtain ⟨e1, he1, rfl⟩ := List.mem_map.1 hmem
      have h1 : e1 ∈ M1.edges := (mem_adjEdges M1 hW1 e1).1 he1
      obtain ⟨e0, he0, rfl⟩ := List.mem_map.1 h1
      rw [flipEdge_flipEdge]
      exact (mem_adjEdges M h e0).1 he0
    · intro hmem
      have h1 : flipEdge e ∈ M1.edges :=
        List.mem_map_of_mem flipEdge ((mem_adjEdges M h e).2 hmem)
      have h2 : flipEdge e ∈ MGraph.adjEdges M1 :=
        (mem_adjEdges M1 hW1 _).2 h1
      have h3 := List.mem_map_of_mem flipEdge h2
      rwa [flipEdge_flipEdge] at h3
  · show ((MGraph.adjEdges M1).map flipEdge).length = M.edges.length
    rw [List.length_map, length_adjEdges M1 hW1]
    show ((MGraph.adjEdges M).map flipEdge).length = M.edges.length
    rw [List.length_map, length_adjEdges M h]

/-! ## `partitionToTwoModules` lemmas (C8) -/

theorem MGraph.mem_addNode_self (g : MGraph) (b : Block) :
    b ∈ (g.addNode b).nodes := by
  unfold MGraph.addNode
  by_cases h : b ∈ g.nodes
  · rw [if_pos h]
    exact h
  · rw [if_neg h]
    show b ∈ g.nodes ++ [b]
    simp

theorem MGraph.mem_addNode_mono (g : MGraph) (b x : Block) (h : x ∈ g.nodes) :
    x ∈ (g.addNode b).nodes := by
  unfold MGraph.addNode
  by_cases hb : b ∈ g.nodes
  · rw [if_pos hb]
    exact h
  · rw [if_neg hb]
    show x ∈ g.nodes ++ [b]
    exact List.mem_append_left _ h

theorem MGraph.nodes_addEdgeKeyed (g : MGraph) (u v : Block) (k : Nat)
    (w : Mask) :
    (g.addEdgeKeyed u v k w).nodes = ((g.addNode u).addNode v).nodes := by
  unfold MGraph.addEdgeKeyed
  dsimp only
  split <;> rfl

theorem MGraph.mem_addEdgeAuto_left (g : MGraph) (u v : Block) (w : Mask) :
    u ∈ (g.addEdgeAuto u v w).nodes := by
  unfold MGraph.addEdgeAuto
  rw [MGraph.nodes_addEdgeKeyed]
  exact MGraph.mem_addNode_mono _ _ _ (MGraph.mem_addNode_self g u)

theorem MGraph.mem_addEdgeAuto_mono (g : MGraph) (u v : Block) (w : Mask)
    (x : Block) (h : x ∈ g.nodes) : x ∈ (g.addEdgeAuto u v w).nodes := by
  unfold MGraph.addEdgeAuto
  rw [MGraph.nodes_addEdgeKeyed]
  exact MGraph.mem_addNode_mono _ _ _ (MGraph.mem_addNode_mono _ _ _ h)

theorem ptmLoop_mem (module : MGraph) (v vF vS : Block) :
    ∀ (fuel : Nat) (st : PTMState), PtmInv v vF vS st →
      ∀ M1 M2, ptmLoop module fuel st = .ok (M1, M2) →
        vF ∈ M1.nodes ∧ vS ∈ M2.nodes := by
  intro fuel
  induction fuel with
  | zero =>
    intro st _ M1 M2 hres
    simp [ptmLoop] at hres
  | succ n ih =>
    intro st hInv M1 M2 hres
    obtain ⟨h1, h2, h3, h4, h5, h6⟩ := hInv
    unfold ptmLoop at hres
    split at hres
    · simp at hres
    rename_i sourceSeg destSeg counter rest hEL
    split at hres
    · simp at hres
    rename_i sourceToDestArray hW1
    split at hres
    · simp at hres
    rename_i destToSourceArray hW2
    split at hres
    · simp at hres
    rename_i el1 hR1
    split at hres
    · simp at hres
    rename_i el2 hR2
    split at hres
    · -- continue branch: both endpoints already done
      rename_i hskip
      exact ih { st with edgeList := el2 } ⟨h1, h2, h3, h4, h5, h6⟩ M1 M2 hres
    rename_i hskip
    split at hres
    · -- processing branch
      rename_i hdist
      split at hres
      · simp at hres
      rename_i sourceFirstNode hFD
      split at hres
      · simp at hres
      rename_i sourceSecNode hSD
      split at hres
      · simp at hres
      rename_i sfa ssa dfa dsa dfn dsn sdv hBranch
      -- destSeg is still in the node set and differs from v
      have hsrcout : sourceSeg ∉ st.nodeSet := h5 sourceSeg hdist
      have hdestin : destSeg ∈ st.nodeSet := by
        rcases Decidable.not_and_iff_or_not.1 hskip with h | h
        · exact absurd (not_not.1 h) hsrcout
        · exact not_not.1 h
      have hdv : destSeg ≠ v := fun hc => h3 (hc ▸ hdestin)
      -- the invariant at the updated state
      have hInv' : PtmInv v vF vS
          { firstPart := (st.firstPart.addEdgeAuto sourceFirstNode dfn
              sfa).addEdgeAuto dfn sourceFirstNode dfa,
            secondPart := (st.secondPart.addEdgeAuto sourceSecNode dsn
              ssa).addEdgeAuto dsn sourceSecNode dsa,
            segDist := Dict.set st.segDist destSeg sdv,
            firstDic := Dict.set st.firstDic destSeg dfn,
            secondDic := Dict.set st.secondDic destSeg dsn,
            nodeSet := st.nodeSet.erase destSeg,
            edgeList := el2 } := by
        have hplaced : vF ∈ ((st.firstPart.addEdgeAuto sourceFirstNode dfn
              sfa).addEdgeAuto dfn sourceFirstNode dfa).nodes ∧
            vS ∈ ((st.secondPart.addEdgeAuto sourceSecNode dsn
              ssa).addEdgeAuto dsn sourceSecNode dsa).nodes := by
          rcases h6 with ⟨hf, hs⟩ | ⟨hall, _⟩
          · exact ⟨MGraph.mem_addEdgeAuto_mono _ _ _ _ _
                (MGraph.mem_addEdgeAuto_mono _ _ _ _ _ hf),
              MGraph.mem_addEdgeAuto_mono _ _ _ _ _
                (MGraph.mem_addEdgeAuto_mono _ _ _ _ _ hs)⟩
          · have hsv : sourceSeg = v := hall sourceSeg hdist
            have hFN : sourceFirstNode = vF := by
              rw [hsv] at hFD
              rw [hFD] at h1
              exact Option.some.inj h1
            have hSN : sourceSecNode = vS := by
              rw [hsv] at hSD
              rw [hSD] at h2
              exact Option.some.inj h2
            constructor
            · rw [← hFN]
              exact MGraph.mem_addEdgeAuto_mono _ _ _ _ _
                (MGraph.mem_addEdgeAuto_left _ _ _ _)
            · rw [← hSN]
              exact MGraph.mem_addEdgeAuto_mono _ _ _ _ _
                (MGraph.mem_addEdgeAuto_left _ _ _ _)
        refine ⟨?_, ?_, ?_, ?_, ?_, Or.inl hplaced⟩
        · show Dict.get? (Dict.set st.firstDic destSeg dfn) v = some vF
          rw [Dict.get?_set_ne _ _ _ _ (fun hc => hdv hc.symm)]
          exact h1
        · show Dict.get? (Dict.set st.secondDic destSeg dsn) v = some vS
          rw [Dict.get?_set_ne _ _ _ _ (fun hc => hdv hc.symm)]
          exact h2
        · intro hc
          exact h3 (List.mem_of_mem_erase hc)
        · exact h4.erase destSeg
        · intro x hx
          by_cases hxd : x = destSeg
          · subst hxd
            intro hc
            exact ((h4.mem_erase_iff).1 hc).1 rfl
          · have : (Dict.get? st.segDist x).getD (-1) ≠ -1 := by
              rwa [Dict.get?_set_ne _ _ _ _ hxd] at hx
            intro hc
            exact h5 x this (List.mem_of_mem_erase hc)
      dsimp only at hres
      split at hres
      · -- node set exhausted: the loop returns the two parts
        rename_i hEmpty
        have := hInv'
        obtain ⟨_, _, _, _, _, h6'⟩ := this
        rcases h6' with ⟨hf, hs⟩ | ⟨_, hne⟩
        · obtain ⟨hm1, hm2⟩ := Prod.mk.inj (Except.ok.inj hres)
          exact ⟨hm1 ▸ hf, hm2 ▸ hs⟩
        · exact absurd (List.isEmpty_iff.1 hEmpty) hne
      · exact ih _ hInv' M1 M2 hres
    · -- the source block carries no distance: fall through
      rename_i hdist
      split at hres
      · rename_i hEmpty
        rcases h6 with ⟨hf, hs⟩ | ⟨_, hne⟩
        · obtain ⟨hm1, hm2⟩ := Prod.mk.inj (Except.ok.inj hres)
          exact ⟨hm1 ▸ hf, hm2 ▸ hs⟩
        · exact absurd (List.isEmpty_iff.1 hEmpty) hne
      · exact ih { st with edgeList := el2 } ⟨h1, h2, h3, h4, h5, h6⟩ M1 M2 hres

/-- **C8, counterexample.** The claim asserts `partitionToTwoModules` returns
a two-module split for EVERY module containing `v` and every offset `k` with
`0 < k < hi - lo`. It does not: on `c5Msrc`, whose second block-vertex `d`
has no edge to `v` (an edgeless two-block module, as produced in the C5
trace), `edge_bfs` from `v` is empty, so the `while edge_list:` loop runs
dry with `d` still unvisited and the source raises
`ValueError("Everything is missed")` (line 382) instead of returning —
even though `v ∈ M` and `k = 100` satisfies `0 < k < 500 - 0`. -/
theorem partitionToTwoModules_counterexample :
    (c5A, ((0 : Int), (500 : Int)), Dir.plus) ∈ c5Msrc.nodes ∧
    (0 : Int) < 100 ∧ (100 : Int) < 500 - 0 ∧
    partitionToTwoModules (c5A, ((0 : Int), (500 : Int)), Dir.plus) 100
      c5Msrc = .error "Everything is missed" := by
  refine ⟨?_, by decide, by decide, ?_⟩
  · exact List.mem_cons_self _ _
  · rfl

/-- **C8, amended.** Whenever `partitionToTwoModules` on a block-vertex
`v = (s, (lo, hi), o)` with split offset `k` returns (it raises
`ValueError("Everything is missed")` when the edge walk from `v` runs dry
with block-vertices still unvisited, as on a module with a block
unreachable from `v`), it places the `(lo, lo+k)` fragment of `v` in the
first returned module when `o = +` and in the second when `o = -`, and the
complementary `(lo+k, hi)` fragment in the other; in particular (see the
witness) the call always returns when `v` is the only block-vertex. -/
theorem partitionToTwoModules_spec (s : NodeT) (lo hi : Int) (o : Dir)
    (k : Int) (M M1 M2 : MGraph) (hk1 : 0 < k) (hk2 : k < hi - lo)
    (hres : partitionToTwoModules (s, (lo, hi), o) k M = .ok (M1, M2)) :
    (o = Dir.plus →
      (s, (lo, lo + k), Dir.plus) ∈ M1.nodes ∧
      (s, (lo + k, hi), Dir.plus) ∈ M2.nodes) ∧
    (o = Dir.minus →
      (s, (lo + k, hi), Dir.minus) ∈ M1.nodes ∧
      (s, (lo, lo + k), Dir.minus) ∈ M2.nodes) := by
  unfold partitionToTwoModules at hres
  have hmem : ptmFirstFrag (s, (lo, hi), o) k ∈ M1.nodes ∧
      ptmSecondFrag (s, (lo, hi), o) k ∈ M2.nodes := by
    split at hres
    · rename_i hEmpty
      obtain ⟨hm1, hm2⟩ := Prod.mk.inj (Except.ok.inj hres)
      exact ⟨hm1 ▸ MGraph.mem_addNode_self _ _,
        hm2 ▸ MGraph.mem_addNode_self _ _⟩
    · rename_i hNE
      apply ptmLoop_mem M (s, (lo, hi), o) (ptmFirstFrag (s, (lo, hi), o) k)
        (ptmSecondFrag (s, (lo, hi), o) k) _ _ ?_ M1 M2 hres
      refine ⟨?_, ?_, ?_, ?_, ?_, Or.inr ⟨?_, ?_⟩⟩
      · show Dict.get? [((s, (lo, hi), o), ptmFirstFrag (s, (lo, hi), o) k)]
          (s, (lo, hi), o) = _
        rw [Dict.get?_cons, if_pos rfl]
      · show Dict.get? [((s, (lo, hi), o), ptmSecondFrag (s, (lo, hi), o) k)]
          (s, (lo, hi), o) = _
        rw [Dict.get?_cons, if_pos rfl]
      · intro hc
        exact ((nodup_dedupKeepFirst M.nodes).mem_erase_iff.1 hc).1 rfl
      · exact (nodup_dedupKeepFirst M.nodes).erase _
      · intro x hx
        by_cases hxv : x = (s, (lo, hi), o)
        · subst hxv
          intro hc
          exact ((nodup_dedupKeepFirst M.nodes).mem_erase_iff.1 hc).1 rfl
        · exfalso
          apply hx
          show (Dict.get? [((s, (lo, hi), o), k)] x).getD (-1) = -1
          rw [Dict.get?_cons, if_neg (fun hc => hxv hc.symm), Dict.get?_nil]
          rfl
      · intro x hx
        by_cases hxv : x = (s, (lo, hi), o)
        · exact hxv
        · exfalso
          apply hx
          show (Dict.get? [((s, (lo, hi), o), k)] x).getD (-1) = -1
          rw [Dict.get?_cons, if_neg (fun hc => hxv hc.symm), Dict.get?_nil]
          rfl
      · intro hc
        apply hNE
        have hc2 : (dedupKeepFirst M.nodes).erase (s, (lo, hi), o) = [] := hc
        rw [hc2]
        rfl
  constructor
  · intro ho
    subst ho
    have h1 : ptmFirstFrag (s, (lo, hi), Dir.plus) k =
        (s, (lo, lo + k), Dir.plus) := rfl
    have h2 : ptmSecondFrag (s, (lo, hi), Dir.plus) k =
        (s, (lo + k, hi), Dir.plus) := rfl
    exact ⟨h1 ▸ hmem.1, h2 ▸ hmem.2⟩
  · intro ho
    subst ho
    have h1 : ptmFirstFrag (s, (lo, hi), Dir.minus) k =
        (s, (lo + k, hi), Dir.minus) := rfl
    have h2 : ptmSecondFrag (s, (lo, hi), Dir.minus) k =
        (s, (lo, lo + k), Dir.minus) := rfl
    exact ⟨h1 ▸ hmem.1, h2 ▸ hmem.2⟩

/-- Closed witness for `partitionToTwoModules_spec`: splitting the singleton
module over `(("w",0,100),(0,50),+)` at offset 20 puts `(0,20)` in the first
part and `(20,50)` in the second. -/
theorem partitionToTwoModules_spec_witness :
    partitionToTwoModules (("w", 0, 100), ((0 : Int), (50 : Int)), Dir.plus) 20
        { nodes := [(("w", 0, 100), (0, 50), Dir.plus)], edges := [] } =
      Except.ok
        ({ nodes := [(("w", 0, 100), (0, 20), Dir.plus)], edges := [] },
         { nodes := [(("w", 0, 100), (20, 50), Dir.plus)], edges := [] }) ∧
    (("w", 0, 100), ((0 : Int), (20 : Int)), Dir.plus) ∈
      ({ nodes := [(("w", 0, 100), (0, 20), Dir.plus)], edges := [] } : MGraph).nodes ∧
    (("w", 0, 100), ((20 : Int), (50 : Int)), Dir.plus) ∈
      ({ nodes := [(("w", 0, 100), (20, 50), Dir.plus)], edges := [] } : MGraph).nodes := by
  have hres : partitionToTwoModules (("w", 0, 100), ((0 : Int), (50 : Int)),
        Dir.plus) 20
        { nodes := [(("w", 0, 100), (0, 50), Dir.plus)], edges := [] } =
      Except.ok
        ({ nodes := [(("w", 0, 100), (0, 20), Dir.plus)], edges := [] },
         { nodes := [(("w", 0, 100), (20, 50), Dir.plus)], edges := [] }) := by
    rfl
  have h := partitionToTwoModules_spec ("w", 0, 100) 0 50 Dir.plus 20
    { nodes := [(("w", 0, 100), (0, 50), Dir.plus)], edges := [] } _ _
    (by decide) (by decide) hres
  exact ⟨hres, h.1 rfl⟩

/-- Closed witness for `signReverse_involution` at `c10Module`. -/
theorem signReverse_involution_witness :
    ∃ M1 M2,
      signReverse c10Module = Except.ok M1 ∧ signReverse M1 = Except.ok M2 ∧
      M1.nodes = c10Module.nodes.map flipBlock ∧
      M1.nodes.length = c10Module.nodes.length ∧
      M1.edges.length = c10Module.edges.length ∧
      (∀ u v : Block, ∀ k : Nat, ∀ w : Mask,
        (u, v, k, w) ∈ c10Module.edges ↔
          (flipBlock u, flipBlock v, k, w.reverse) ∈ M1.edges) ∧
      M2.nodes = c10Module.nodes ∧
      (∀ e : EdgeT, e ∈ M2.edges ↔ e ∈ c10Module.edges) ∧
      M2.edges.length = c10Module.edges.length :=
  signReverse_involution c10Module (by
    refine ⟨by decide, ?_, by decide⟩
    intro e he
    fin_cases he <;> decide)

/-! ## C7: the emission step -/

/-- **C7 counterexample.** On `c7Dic` the emission step writes two lines,
both equal to the singleton `[(("s",0,100),(0,50),+)]`: the per-block
`lo ≤ hi` filter runs only after deduplication and after the
more-than-one-block filter, so a line with a single block is emitted, and
two emitted lines coincide. -/
theorem emitModules_counterexample :
    emitModules c7Dic = [[(("s", 0, 100), (0, 50), Dir.plus)],
                         [(("s", 0, 100), (0, 50), Dir.plus)]] ∧
    (∃ line ∈ emitModules c7Dic, line.length = 1) ∧
    ¬ (emitModules c7Dic).Nodup :=
  ⟨rfl, by decide, by decide⟩

/-- **C7.** (amended) Every emitted line is the `lo ≤ hi` filtering of the
sorted node list of some live module, and that sorted node list has more than
one block.  In particular every emitted block satisfies `lo ≤ hi`; but the
line itself can end up with fewer than two blocks, and two lines can
coincide, because deduplication and the singleton filter are applied before
the per-block filter. -/
theorem emitModules_spec (p2m : PathsDict) (line : List Block)
    (hline : line ∈ emitModules p2m) :
    (∀ b ∈ line, b.2.1.1 ≤ b.2.1.2) ∧
    ∃ g ∈ p2m.values, 1 < (sortBlocks g.nodes).length ∧
      line = (sortBlocks g.nodes).filter (fun b => b.2.1.1 ≤ b.2.1.2) := by
  unfold emitModules at hline
  obtain ⟨m, hm, hlm⟩ := List.mem_map.1 hline
  have hm2 := List.mem_filter.1 hm
  have hm3 := (mem_dedupKeepFirst _ _).1 hm2.1
  obtain ⟨g, hg, hgm⟩ := List.mem_map.1 hm3
  constructor
  · intro b hb
    rw [← hlm] at hb
    have := List.of_mem_filter hb
    exact of_decide_eq_true this
  · refine ⟨g, hg, ?_, ?_⟩
    · rw [hgm]
      exact of_decide_eq_true hm2.2
    · rw [← hlm, hgm]

/-- Closed witness for `emitModules_spec` on a one-module dictionary. -/
theorem emitModules_spec_witness :
    ∃ g ∈ Dict.values ([((("a", 0, 10), ((0 : Int), (5 : Int))),
        ({ nodes := [(("a", 0, 10), (0, 5), Dir.plus),
                     (("b", 0, 10), (0, 5), Dir.plus)],
           edges := [] } : MGraph))] : PathsDict),
      1 < (sortBlocks g.nodes).length ∧
      [(("a", 0, 10), ((0 : Int), (5 : Int)), Dir.plus),
       (("b", 0, 10), ((0 : Int), (5 : Int)), Dir.plus)] =
        (sortBlocks g.nodes).filter (fun b => b.2.1.1 ≤ b.2.1.2) := by
  have h := emitModules_spec
    [((("a", 0, 10), ((0 : Int), (5 : Int))),
      { nodes := [(("a", 0, 10), (0, 5), Dir.plus),
                  (("b", 0, 10), (0, 5), Dir.plus)],
        edges := [] })]
    [(("a", 0, 10), ((0 : Int), (5 : Int)), Dir.plus),
     (("b", 0, 10), ((0 : Int), (5 : Int)), Dir.plus)]
    (by decide)
  exact h.2

/-! ## C6: the trim schedule -/

set_option maxRecDepth 100000 in
set_option maxHeartbeats 4000000 in
/-- **C6 counterexample.** A 250-iteration SCC trace in which the directed
edge counter reaches the multiple 500 on an already-visited edge pair (the
counter grows by 2 per popped pair, duplicates included): the duplicate
check's `continue` precedes the trim check, so `trimShortModules` is never
invoked during the loop — the trim-event list is empty although the counter
passed through the multiple 500. -/
theorem schedLoop_counterexample :
    (schedLoop c6weights 250 c6init).toOption.map
        (fun r => (r.1.numberOfEdges, r.2)) = some (500, []) ∧
    (500 : Nat) % 500 = 0 :=
  ⟨rfl, rfl⟩

theorem Dict.pop_nil {κ ν : Type} [DecidableEq κ] (k : κ) :
    Dict.pop ([] : Dict κ ν) k = [] := rfl

theorem Dict.pop_cons {κ ν : Type} [DecidableEq κ] (k0 : κ) (v0 : ν)
    (rest : Dict κ ν) (k : κ) :
    Dict.pop ((k0, v0) :: rest) k =
      if k0 = k then rest else (k0, v0) :: Dict.pop rest k := rfl

theorem Dict.get?_eq_none_of_not_mem {κ ν : Type} [DecidableEq κ]
    (d : Dict κ ν) (k : κ) (h : k ∉ d.map Prod.fst) :
    Dict.get? d k = none := by
  induction d with
  | nil => rfl
  | cons p rest ih =>
    obtain ⟨k0, v0⟩ := p
    rw [Dict.get?_cons, if_neg, ih]
    · intro hc
      exact h (List.mem_cons.2 (Or.inr hc))
    · intro hc
      exact h (by rw [hc]; exact List.mem_cons.2 (Or.inl rfl))

theorem Dict.get?_pop_self {κ ν : Type} [DecidableEq κ] (d : Dict κ ν)
    (k : κ) (hnd : (d.map Prod.fst).Nodup) :
    Dict.get? (Dict.pop d k) k = none := by
  induction d with
  | nil => rfl
  | cons p rest ih =>
    obtain ⟨k0, v0⟩ := p
    rw [Dict.pop_cons]
    rw [List.map_cons, List.nodup_cons] at hnd
    by_cases h : k0 = k
    · rw [if_pos h]
      subst h
      exact Dict.get?_eq_none_of_not_mem rest k0 hnd.1
    · rw [if_neg h, Dict.get?_cons, if_neg h]
      exact ih hnd.2

theorem Dict.get?_pop_ne {κ ν : Type} [DecidableEq κ] (d : Dict κ ν)
    (k k' : κ) (h : k' ≠ k) :
    Dict.get? (Dict.pop d k) k' = Dict.get? d k' := by
  induction d with
  | nil => rfl
  | cons p rest ih =>
    obtain ⟨k0, v0⟩ := p
    rw [Dict.pop_cons]
    by_cases hk : k0 = k
    · rw [if_pos hk, Dict.get?_cons, if_neg]
      intro hc
      exact h (hc ▸ hk)
    · rw [if_neg hk, Dict.get?_cons, Dict.get?_cons]
      by_cases hk0 : k0 = k'
      · rw [if_pos hk0, if_pos hk0]
      · rw [if_neg hk0, if_neg hk0]
        exact ih

theorem Dict.map_fst_pop_sublist {κ ν : Type} [DecidableEq κ] (d : Dict κ ν)
    (k : κ) :
    List.Sublist ((Dict.pop d k).map Prod.fst) (d.map Prod.fst) := by
  induction d with
  | nil => exact List.Sublist.refl _
  | cons p rest ih =>
    obtain ⟨k0, v0⟩ := p
    rw [Dict.pop_cons]
    by_cases h : k0 = k
    · rw [if_pos h, List.map_cons]
      exact List.Sublist.cons _ (List.Sublist.refl _)
    · rw [if_neg h, List.map_cons, List.map_cons]
      exact List.Sublist.cons₂ _ ih

theorem mem_keys_of_mem_ddGet (d : NodesDict) (n : NodeT) (q : Ivl)
    (h : q ∈ ddGet d n) : n ∈ d.map Prod.fst := by
  unfold ddGet Dict.get? at h
  cases hf : d.find? (fun p => p.1 = n) with
  | none => rw [hf] at h; simp at h
  | some pr =>
    have h1 := List.find?_some hf
    have h2 := List.mem_of_find?_eq_some hf
    simp only [decide_eq_true_eq] at h1
    exact h1 ▸ List.mem_map.2 ⟨pr, h2, rfl⟩

theorem ddGet_ddEnsure_self (d : NodesDict) (n : NodeT) :
    ddGet (ddEnsure d n) n = ddGet d n := by
  unfold ddEnsure
  by_cases h : Dict.hasKey d n
  · rw [if_pos h]
  · rw [if_neg h]
    have hn : Dict.get? d n = none := by
      unfold Dict.hasKey at h
      unfold Dict.get?
      cases hf : d.find? (fun p => p.1 = n) with
      | none => rfl
      | some pr => rw [hf] at h; simp at h
    unfold ddGet
    rw [Dict.get?_set_self, hn]
    rfl

theorem ddGet_ddEnsure_ne (d : NodesDict) (n m : NodeT) (h : m ≠ n) :
    ddGet (ddEnsure d n) m = ddGet d m := by
  unfold ddEnsure
  by_cases hk : Dict.hasKey d n
  · rw [if_pos hk]
  · rw [if_neg hk]
    unfold ddGet
    rw [Dict.get?_set_ne _ _ _ _ h]

theorem ddGet_nodesDiscard_self (d : NodesDict) (n : NodeT) (p : Ivl) :
    ddGet (nodesDiscard d n p) n = (ddGet d n).erase p := by
  show ddGet (Dict.set (ddEnsure d n) n ((ddGet (ddEnsure d n) n).erase p)) n
      = (ddGet d n).erase p
  unfold ddGet
  rw [Dict.get?_set_self, Option.getD_some]
  have h := ddGet_ddEnsure_self d n
  unfold ddGet at h
  rw [h]

theorem ddGet_nodesDiscard_ne (d : NodesDict) (n : NodeT) (p : Ivl)
    (m : NodeT) (h : m ≠ n) :
    ddGet (nodesDiscard d n p) m = ddGet d m := by
  show ddGet (Dict.set (ddEnsure d n) n ((ddGet (ddEnsure d n) n).erase p)) m
      = ddGet d m
  unfold ddGet
  rw [Dict.get?_set_ne _ _ _ _ h]
  have h2 := ddGet_ddEnsure_ne d n m h
  unfold ddGet at h2
  rw [h2]

theorem mem_foldl_erase (t : Int) :
    ∀ (L cur : List Ivl), cur.Nodup → ∀ q : Ivl,
      (q ∈ L.foldl (fun c r => if r.2 - r.1 < t then c.erase r else c) cur
        ↔ q ∈ cur ∧ ¬(q.2 - q.1 < t ∧ q ∈ L)) := by
  intro L
  induction L with
  | nil => intro cur _ q; simp
  | cons r L ih =>
    intro cur hnd q
    rw [List.foldl_cons]
    by_cases hr : r.2 - r.1 < t
    · rw [if_pos hr, ih (cur.erase r) (hnd.erase r) q]
      constructor
      · rintro ⟨h1, h2⟩
        have h3 := (List.Nodup.mem_erase_iff hnd).1 h1
        refine ⟨h3.2, ?_⟩
        rintro ⟨hs, hmem⟩
        rcases List.mem_cons.1 hmem with h4 | h4
        · exact h3.1 h4
        · exact h2 ⟨hs, h4⟩
      · rintro ⟨h1, h2⟩
        have hqr : q ≠ r := by
          rintro rfl
          exact h2 ⟨hr, List.mem_cons.2 (Or.inl rfl)⟩
        refine ⟨(List.Nodup.mem_erase_iff hnd).2 ⟨hqr, h1⟩, ?_⟩
        rintro ⟨hs, hmem⟩
        exact h2 ⟨hs, List.mem_cons.2 (Or.inr hmem)⟩
    · rw [if_neg hr, ih cur hnd q]
      constructor
      · rintro ⟨h1, h2⟩
        refine ⟨h1, ?_⟩
        rintro ⟨hs, hmem⟩
        rcases List.mem_cons.1 hmem with h4 | h4
        · subst h4; exact hr hs
        · exact h2 ⟨hs, h4⟩
      · rintro ⟨h1, h2⟩
        exact ⟨h1, fun hc => h2 ⟨hc.1, List.mem_cons.2 (Or.inr hc.2)⟩⟩

theorem trimInner_fst_self (t : Int) (node : NodeT) (L : List Ivl) :
    ∀ st : NodesDict × PathsDict,
      ddGet (L.foldl (fun st path =>
          if path.2 - path.1 < t then
            (nodesDiscard st.1 node path, Dict.pop st.2 (node, path))
          else st) st).1 node
        = L.foldl (fun c q => if q.2 - q.1 < t then c.erase q else c)
            (ddGet st.1 node) := by
  induction L with
  | nil => intro st; rfl
  | cons q L ih =>
    intro st
    rw [List.foldl_cons, List.foldl_cons]
    by_cases hq : q.2 - q.1 < t
    · rw [if_pos hq, if_pos hq, ih, ddGet_nodesDiscard_self]
    · rw [if_neg hq, if_neg hq, ih]

theorem trimInner_fst_ne (t : Int) (node : NodeT) (L : List Ivl) (m : NodeT)
    (hm : m ≠ node) :
    ∀ st : NodesDict × PathsDict,
      ddGet (L.foldl (fun st path =>
          if path.2 - path.1 < t then
            (nodesDiscard st.1 node path, Dict.pop st.2 (node, path))
          else st) st).1 m
        = ddGet st.1 m := by
  induction L with
  | nil => intro st; rfl
  | cons q L ih =>
    intro st
    rw [List.foldl_cons]
    by_cases hq : q.2 - q.1 < t
    · rw [if_pos hq, ih, ddGet_nodesDiscard_ne _ _ _ _ hm]
    · rw [if_neg hq, ih]

theorem trimInner_keys_nodup (t : Int) (node : NodeT) (L : List Ivl) :
    ∀ st : NodesDict × PathsDict, (st.2.map Prod.fst).Nodup →
      (((L.foldl (fun st path =>
          if path.2 - path.1 < t then
            (nodesDiscard st.1 node path, Dict.pop st.2 (node, path))
          else st) st).2).map Prod.fst).Nodup := by
  induction L with
  | nil => intro st hnd; exact hnd
  | cons q L ih =>
    intro st hnd
    rw [List.foldl_cons]
    by_cases hq : q.2 - q.1 < t
    · rw [if_pos hq]
      exact ih _ (List.Nodup.sublist (Dict.map_fst_pop_sublist _ _) hnd)
    · rw [if_neg hq]
      exact ih _ hnd

theorem trimInner_snd (t : Int) (node : NodeT) (L : List Ivl) (m : NodeT)
    (p : Ivl) :
    ∀ st : NodesDict × PathsDict, (st.2.map Prod.fst).Nodup →
      Dict.get? (L.foldl (fun st path =>
          if path.2 - path.1 < t then
            (nodesDiscard st.1 node path, Dict.pop st.2 (node, path))
          else st) st).2 (m, p)
        = if m = node ∧ p ∈ L ∧ p.2 - p.1 < t then none
          else Dict.get? st.2 (m, p) := by
  induction L with
  | nil =>
    intro st _
    rw [if_neg]
    · rfl
    · rintro ⟨-, h, -⟩
      simp at h
  | cons q L ih =>
    intro st hnd
    rw [List.foldl_cons]
    by_cases hq : q.2 - q.1 < t
    · rw [if_pos hq]
      have hnd2 : ((Dict.pop st.2 (node, q)).map Prod.fst).Nodup :=
        List.Nodup.sublist (Dict.map_fst_pop_sublist _ _) hnd
      rw [ih _ hnd2]
      by_cases h1 : m = node
      · subst h1
        by_cases h2 : p = q
        · subst h2
          by_cases h3 : p ∈ L
          · rw [if_pos ⟨rfl, h3, hq⟩,
              if_pos ⟨rfl, List.mem_cons.2 (Or.inl rfl), hq⟩]
          · rw [if_neg (fun hc => h3 hc.2.1),
              if_pos ⟨rfl, List.mem_cons.2 (Or.inl rfl), hq⟩]
            exact Dict.get?_pop_self st.2 (m, p) hnd
        · by_cases h3 : p ∈ L ∧ p.2 - p.1 < t
          · rw [if_pos ⟨rfl, h3.1, h3.2⟩,
              if_pos ⟨rfl, List.mem_cons.2 (Or.inr h3.1), h3.2⟩]
          · rw [if_neg (fun hc => h3 ⟨hc.2.1, hc.2.2⟩), if_neg]
            · exact Dict.get?_pop_ne st.2 (m, q) (m, p)
                (fun hc => h2 (congrArg Prod.snd hc))
            · rintro ⟨-, hmem, hshort⟩
              rcases List.mem_cons.1 hmem with h4 | h4
              · exact h2 h4
              · exact h3 ⟨h4, hshort⟩
      · rw [if_neg (fun hc => h1 hc.1), if_neg (fun hc => h1 hc.1)]
        exact Dict.get?_pop_ne st.2 (node, q) (m, p)
          (fun hc => h1 (congrArg Prod.fst hc))
    · rw [if_neg hq, ih _ hnd]
      by_cases h3 : m = node ∧ p ∈ L ∧ p.2 - p.1 < t
      · rw [if_pos h3, if_pos ⟨h3.1, List.mem_cons.2 (Or.inr h3.2.1), h3.2.2⟩]
      · rw [if_neg h3, if_neg]
        rintro ⟨hm, hmem, hshort⟩
        rcases List.mem_cons.1 hmem with h4 | h4
        · subst h4; exact hq hshort
        · exact h3 ⟨hm, h4, hshort⟩

theorem trimOuter (t : Int) (K : List NodeT) :
    K.Nodup →
    ∀ st : NodesDict × PathsDict, (st.2.map Prod.fst).Nodup →
      (∀ m ∈ K, (ddGet st.1 m).Nodup) →
      (∀ n q, q ∈ ddGet (K.foldl (fun st node =>
            (ddGet st.1 node).foldl (fun st path =>
              if path.2 - path.1 < t then
                (nodesDiscard st.1 node path, Dict.pop st.2 (node, path))
              else st) st) st).1 n
          ↔ q ∈ ddGet st.1 n ∧ ¬(n ∈ K ∧ q.2 - q.1 < t)) ∧
      (∀ n p, Dict.get? (K.foldl (fun st node =>
            (ddGet st.1 node).foldl (fun st path =>
              if path.2 - path.1 < t then
                (nodesDiscard st.1 node path, Dict.pop st.2 (node, path))
              else st) st) st).2 (n, p)
          = if n ∈ K ∧ p ∈ ddGet st.1 n ∧ p.2 - p.1 < t then none
            else Dict.get? st.2 (n, p)) := by
  induction K with
  | nil =>
    intro _ st _ _
    constructor
    · intro n q; simp
    · intro n p
      rw [if_neg]
      · rfl
      · rintro ⟨h, -⟩
        simp at h
  | cons k K ih =>
    intro hK st hnd hv
    rw [List.nodup_cons] at hK
    rw [List.foldl_cons]
    have hnd1 := trimInner_keys_nodup t k (ddGet st.1 k) st hnd
    have hv1 : ∀ m ∈ K,
        (ddGet ((ddGet st.1 k).foldl (fun st path =>
          if path.2 - path.1 < t then
            (nodesDiscard st.1 k path, Dict.pop st.2 (k, path))
          else st) st).1 m).Nodup := by
      intro m hm
      rw [trimInner_fst_ne t k (ddGet st.1 k) m (fun hc => hK.1 (hc ▸ hm)) st]
      exact hv m (List.mem_cons.2 (Or.inr hm))
    obtain ⟨ihf, ihs⟩ := ih hK.2 _ hnd1 hv1
    constructor
    · intro n q
      rw [ihf n q]
      by_cases hn : n = k
      · subst hn
        rw [trimInner_fst_self t n (ddGet st.1 n) st,
          mem_foldl_erase t (ddGet st.1 n) (ddGet st.1 n)
            (hv n (List.mem_cons.2 (Or.inl rfl))) q]
        constructor
        · rintro ⟨⟨h1, h2⟩, -⟩
          refine ⟨h1, ?_⟩
          rintro ⟨-, hs⟩
          exact h2 ⟨hs, h1⟩
        · rintro ⟨h1, h2⟩
          have hs : ¬ q.2 - q.1 < t :=
            fun hs => h2 ⟨List.mem_cons.2 (Or.inl rfl), hs⟩
          exact ⟨⟨h1, fun hc => hs hc.1⟩, fun hc => hs hc.2⟩
      · rw [trimInner_fst_ne t k (ddGet st.1 k) n hn st]
        constructor
        · rintro ⟨h1, h2⟩
          refine ⟨h1, ?_⟩
          rintro ⟨hmem, hs⟩
          rcases List.mem_cons.1 hmem with h4 | h4
          · exact hn h4
          · exact h2 ⟨h4, hs⟩
        · rintro ⟨h1, h2⟩
          exact ⟨h1, fun hc => h2 ⟨List.mem_cons.2 (Or.inr hc.1), hc.2⟩⟩
    · intro n p
      rw [ihs n p, trimInner_snd t k (ddGet st.1 k) n p st hnd]
      by_cases hn : n = k
      · subst hn
        rw [if_neg (fun hc => hK.1 hc.1)]
        by_cases h3 : p ∈ ddGet st.1 n ∧ p.2 - p.1 < t
        · rw [if_pos ⟨rfl, h3.1, h3.2⟩,
            if_pos ⟨List.mem_cons.2 (Or.inl rfl), h3⟩]
        · rw [if_neg (fun hc => h3 ⟨hc.2.1, hc.2.2⟩), if_neg]
          rintro ⟨-, hc⟩
          exact h3 hc
      · rw [trimInner_fst_ne t k (ddGet st.1 k) n hn st]
        rw [if_neg (show ¬(n = k ∧ p ∈ ddGet st.1 k ∧ p.2 - p.1 < t) from
          fun hc => hn hc.1)]
        by_cases h3 : n ∈ K ∧ p ∈ ddGet st.1 n ∧ p.2 - p.1 < t
        · rw [if_pos h3, if_pos ⟨List.mem_cons.2 (Or.inr h3.1), h3.2⟩]
        · rw [if_neg h3, if_neg]
          rintro ⟨hmem, hrest⟩
          rcases List.mem_cons.1 hmem with h4 | h4
          · exact hn h4
          · exact h3 ⟨h4, hrest⟩

/-- **C6.** (amended) `trimShortModules` removes from the first index exactly
the registered blocks of length strictly below the threshold and pops
exactly their `(node, path)` keys from the second index, leaving every other
entry unchanged; and the driver invokes it during an SCC exactly at those
iterations whose incremented directed-edge counter is a multiple of 500 AND
whose `(node, sorted path)` pair was not previously visited — an
already-visited pair skips the trim check (source: the duplicate `continue`
at lines 1501-1502 precedes the `% 500` check at line 1505).  The source
additionally runs one unconditional trim after the loop (line 1563). -/
theorem trimShortModules_spec (n2p : NodesDict) (p2m : PathsDict)
    (hk : (n2p.map Prod.fst).Nodup) (hp : (p2m.map Prod.fst).Nodup)
    (hv : ∀ m ∈ n2p.map Prod.fst, (ddGet n2p m).Nodup)
    (n : NodeT) (p : Ivl) :
    (∀ q : Ivl, q ∈ ddGet (trimShortModules n2p p2m 10).1 n ↔
        q ∈ ddGet n2p n ∧ 10 ≤ q.2 - q.1) ∧
    (Dict.get? (trimShortModules n2p p2m 10).2 (n, p)
        = if p ∈ ddGet n2p n ∧ p.2 - p.1 < 10 then none
          else Dict.get? p2m (n, p)) ∧
    (∀ weights st st' trimmed,
        schedStep weights st = Except.ok (st', trimmed) →
          (trimmed = true ↔ st'.numberOfEdges % 500 = 0 ∧
            st'.visitedEdgePair ≠ st.visitedEdgePair)) := by
  obtain ⟨hf, hs⟩ := trimOuter 10 (n2p.map Prod.fst) hk (n2p, p2m) hp hv
  refine ⟨?_, ?_, ?_⟩
  · intro q
    have h2 : q ∈ ddGet (trimShortModules n2p p2m 10).1 n ↔
        q ∈ ddGet (n2p, p2m).1 n ∧
          ¬(n ∈ n2p.map Prod.fst ∧ q.2 - q.1 < 10) := hf n q
    rw [h2]
    constructor
    · rintro ⟨h1, h3⟩
      refine ⟨h1, Int.not_lt.1 ?_⟩
      exact fun hs2 => h3 ⟨mem_keys_of_mem_ddGet n2p n q h1, hs2⟩
    · rintro ⟨h1, h3⟩
      exact ⟨h1, fun hc => absurd h3 (Int.not_le.2 hc.2)⟩
  · have h2 : Dict.get? (trimShortModules n2p p2m 10).2 (n, p)
        = if n ∈ n2p.map Prod.fst ∧ p ∈ ddGet (n2p, p2m).1 n ∧ p.2 - p.1 < 10
          then none else Dict.get? (n2p, p2m).2 (n, p) := hs n p
    rw [h2]
    by_cases h3 : p ∈ ddGet n2p n ∧ p.2 - p.1 < 10
    · rw [if_pos ⟨mem_keys_of_mem_ddGet n2p n p h3.1, h3.1, h3.2⟩, if_pos h3]
    · rw [if_neg (fun hc => h3 ⟨hc.2.1, hc.2.2⟩), if_neg h3]
  · intro weights st st' trimmed hstep
    unfold schedStep at hstep
    dsimp only at hstep
    repeat' split at hstep
    any_goals exact Except.noConfusion hstep
    · obtain ⟨h1, h2⟩ := Prod.mk.inj (Except.ok.inj hstep)
      subst h1
      subst h2
      constructor
      · intro hc
        exact absurd hc (by simp)
      · rintro ⟨-, hne⟩
        exact absurd rfl hne
    · obtain ⟨h1, h2⟩ := Prod.mk.inj (Except.ok.inj hstep)
      subst h1
      subst h2
      constructor
      · intro hc
        constructor
        · show (st.numberOfEdges + 2) % 500 = 0
          simpa using hc
        · intro hc2
          have h5 := congrArg List.length hc2
          simp at h5
      · rintro ⟨h1, -⟩
        simpa using h1

/-- Closed witness for `trimShortModules_spec`: one node with a short and a
long registered block; the short block's module key is popped. -/
theorem trimShortModules_spec_witness :
    Dict.get? (trimShortModules
        [((("a", 0, 10) : NodeT),
          [((0 : Int), (5 : Int)), ((0 : Int), (50 : Int))])]
        [(((("a", 0, 10) : NodeT), ((0 : Int), (5 : Int))), MGraph.empty),
         (((("a", 0, 10) : NodeT), ((0 : Int), (50 : Int))), MGraph.empty)]
        10).2 (("a", 0, 10), ((0 : Int), (5 : Int))) = none := by
  have h := trimShortModules_spec
      [((("a", 0, 10) : NodeT),
        [((0 : Int), (5 : Int)), ((0 : Int), (50 : Int))])]
      [(((("a", 0, 10) : NodeT), ((0 : Int), (5 : Int))), MGraph.empty),
       (((("a", 0, 10) : NodeT), ((0 : Int), (50 : Int))), MGraph.empty)]
      (by decide) (by decide) (by decide)
      (("a", 0, 10)) ((0 : Int), (5 : Int))
  rw [h.2.1]
  decide

set_option maxRecDepth 100000 in
set_option maxHeartbeats 2000000 in
/-- **C5 counterexample.** In this `moduleModulePartition` run the
destination-side chop succeeds and its results are committed to both
indexes; the source-side reconciliation for the chopped block then raises
(`partitionToTwoModules` on the edgeless module `c5Msrc`: conjunct 2), so
the second exception handler runs — and the returned dictionaries are
exactly the MID-EDGE snapshots (conjunct 1), not the pre-edge ones: the
key `(b, (0,100))` is live in the result but did not exist before the edge
(conjuncts 3-4), a difference no pruning of broken modules can produce. -/
theorem moduleModulePartition_counterexample :
    moduleModulePartition 20 c5A c5B (0, 100) (0, 100) Dir.plus Dir.plus
        c5n2p c5p2m (c5ones 100) (c5ones 100)
      = .ok (c5midN2p, c5midP2m) ∧
    recursiveModuleVSModuleChecking 20 [c5Msrc] c5A c5B (1, 100) (0, 100)
        Dir.plus Dir.plus c5M1 c5midN2p c5midP2m (c5ones 99) (c5ones 99)
      = .error "Everything is missed" ∧
    Dict.hasKey c5midP2m (c5B, ((0 : Int), (100 : Int))) = true ∧
    Dict.hasKey c5p2m (c5B, ((0 : Int), (100 : Int))) = false :=
  ⟨rfl, rfl, rfl, rfl⟩

theorem removeFold_spec (bs : List Block) :
    ∀ st : NodesDict × PathsDict, (st.2.map Prod.fst).Nodup →
      ((((bs.foldl (fun st b =>
          let (nodeName, pathTuple, _direction) := b
          (nodesDiscard st.1 nodeName pathTuple,
            Dict.pop st.2 (nodeName, pathTuple))) st).2).map Prod.fst).Nodup)
      ∧ (∀ k g, Dict.get? (bs.foldl (fun st b =>
          let (nodeName, pathTuple, _direction) := b
          (nodesDiscard st.1 nodeName pathTuple,
            Dict.pop st.2 (nodeName, pathTuple))) st).2 k = some g →
          Dict.get? st.2 k = some g)
      ∧ (∀ n q, q ∈ ddGet (bs.foldl (fun st b =>
          let (nodeName, pathTuple, _direction) := b
          (nodesDiscard st.1 nodeName pathTuple,
            Dict.pop st.2 (nodeName, pathTuple))) st).1 n →
          q ∈ ddGet st.1 n) := by
  induction bs with
  | nil =>
    intro st h
    exact ⟨h, fun k g h2 => h2, fun n q h2 => h2⟩
  | cons b rest ih =>
    intro st hnd
    obtain ⟨bn, bp, bd⟩ := b
    rw [List.foldl_cons]
    have hnd1 : ((Dict.pop st.2 (bn, bp)).map Prod.fst).Nodup :=
      List.Nodup.sublist (Dict.map_fst_pop_sublist _ _) hnd
    obtain ⟨ih1, ih2, ih3⟩ :=
      ih (nodesDiscard st.1 bn bp, Dict.pop st.2 (bn, bp)) hnd1
    refine ⟨ih1, ?_, ?_⟩
    · intro k g hg
      have h2 := ih2 k g hg
      by_cases hk : k = (bn, bp)
      · subst hk
        rw [Dict.get?_pop_self _ _ hnd] at h2
        cases h2
      · rw [Dict.get?_pop_ne _ _ _ hk] at h2
        exact h2
    · intro n q hq
      have h2 := ih3 n q hq
      by_cases hn : n = bn
      · subst hn
        rw [ddGet_nodesDiscard_self] at h2
        exact List.mem_of_mem_erase h2
      · rw [ddGet_nodesDiscard_ne _ _ _ _ hn] at h2
        exact h2

theorem pruneFold_spec (gs : List MGraph) :
    ∀ st : NodesDict × PathsDict, (st.2.map Prod.fst).Nodup →
      ((((gs.foldl (fun st g =>
          if multiSCC g then removeOldModule g st.1 st.2 else st)
            st).2).map Prod.fst).Nodup)
      ∧ (∀ k g, Dict.get? (gs.foldl (fun st g =>
          if multiSCC g then removeOldModule g st.1 st.2 else st) st).2 k
            = some g → Dict.get? st.2 k = some g)
      ∧ (∀ n q, q ∈ ddGet (gs.foldl (fun st g =>
          if multiSCC g then removeOldModule g st.1 st.2 else st) st).1 n →
          q ∈ ddGet st.1 n) := by
  induction gs with
  | nil =>
    intro st h
    exact ⟨h, fun k g h2 => h2, fun n q h2 => h2⟩
  | cons g rest ih =>
    intro st hnd
    rw [List.foldl_cons]
    by_cases hg : multiSCC g
    · rw [if_pos hg]
      obtain ⟨r1, r2, r3⟩ := removeFold_spec g.nodes (st.1, st.2) hnd
      obtain ⟨ih1, ih2, ih3⟩ := ih (removeOldModule g st.1 st.2) r1
      refine ⟨ih1, ?_, ?_⟩
      · intro k v hv
        exact r2 k v (ih2 k v hv)
      · intro n q hq
        exact r3 n q (ih3 n q hq)
    · rw [if_neg hg]
      exact ih st hnd

/-- **C5.** (amended) When the destination-side chop
(`chopModulesAndUpdateGraph`) raises, `moduleModulePartition`'s FIRST
exception handler genuinely restores the pre-edge dictionaries (the chop
never mutates them, so the shallow copies suffice) and then prunes the
modules with more than one strongly connected component: the result is
exactly `pruneMultiSCC` of the inputs, and pruning only ever removes
entries — it maps every surviving module binding and every surviving
registered path to an identical pre-edge one.  (When instead a later
`recursiveModuleVSModuleChecking` call raises, the SECOND handler restores
copies taken mid-edge — after the commit loop and the earlier block
iterations — and its overlap-pruning loop is dead code; see the
counterexample.) -/
theorem moduleModulePartition_spec (fuel : Nat) (nodeA nodeB : NodeT)
    (pathAtoB partBtoA : Ivl) (dAB dBA : Dir) (n2p : NodesDict)
    (p2m : PathsDict) (aAB aBA : Mask) (e : String)
    (bConnected : List MGraph)
    (hp : (p2m.map Prod.fst).Nodup)
    (hbc : (bedtoolCall nodeB n2p partBtoA).mapM (fun pr =>
      exceptOfOption (Dict.get? p2m pr) "KeyError") = .ok bConnected)
    (hchop : chopModulesAndUpdateGraph fuel bConnected nodeB partBtoA dBA
      [] [] n2p p2m = .error e) :
    moduleModulePartition fuel nodeA nodeB pathAtoB partBtoA dAB dBA n2p p2m
        aAB aBA = .ok (pruneMultiSCC n2p p2m) ∧
    (∀ k g, Dict.get? (pruneMultiSCC n2p p2m).2 k = some g →
      Dict.get? p2m k = some g) ∧
    (∀ n q, q ∈ ddGet (pruneMultiSCC n2p p2m).1 n → q ∈ ddGet n2p n) := by
  obtain ⟨-, h2, h3⟩ := pruneFold_spec p2m.values (n2p, p2m) hp
  refine ⟨?_, h2, h3⟩
  unfold moduleModulePartition
  dsimp only
  rw [hbc]
  dsimp only
  rw [hchop]

/-- Closed witness for `moduleModulePartition_spec`: the chop of `(1,100)`
against the edgeless module `c5W` raises `Everything is missed`, and the
call returns the pruned pre-edge dictionaries. -/
theorem moduleModulePartition_spec_witness :
    moduleModulePartition 5 c5A c5B (1, 100) (1, 100) Dir.plus Dir.plus
        [(c5B, [((0 : Int), (500 : Int))])]
        [((c5B, ((0 : Int), (500 : Int))), c5W)] (c5ones 99) (c5ones 99)
      = .ok (pruneMultiSCC [(c5B, [((0 : Int), (500 : Int))])]
          [((c5B, ((0 : Int), (500 : Int))), c5W)]) := by
  have h := moduleModulePartition_spec 5 c5A c5B (1, 100) (1, 100) Dir.plus
    Dir.plus [(c5B, [((0 : Int), (500 : Int))])]
    [((c5B, ((0 : Int), (500 : Int))), c5W)] (c5ones 99) (c5ones 99)
    "Everything is missed" [c5W] (by decide) rfl rfl
  exact h.1

end MHG

